import Mathlib

/-!
# SamilLogger: the master side of the Samil inverter serial protocol

A shallow embedding of `SamilCommunicator.cpp` and the properties of it that are stated in
the specification of the repository.

Conventions of the embedding.

* `char` is the unsigned 8-bit type of the target (the trace kept as a comment in
  `parseIncomingData` prints `0x80` and `0xA2` and compares them equal to the literals);
  octets and 8-bit counters are natural numbers, reduced modulo 256 wherever the source
  does arithmetic on them.  `uint16_t` arithmetic is reduced modulo 65536, `millis()`
  arithmetic modulo 2^32.
* The object is a record of its members; the octets written to `samilSerial` are collected
  in the member `serialOut`, oldest first.  The octets that `samilSerial->read()` hands out
  during one call are an argument of the call, and so is the value of `millis()`.
* A pointer into a buffer is the list of octets from that position on; a pointer to a
  registry record is the index of the record.
* A function that can loop for ever returns an `Option`; `none` is the run that never ends.
* Diagnostic output (`Serial`, `debugMode`) is left out.
-/

namespace Samil

/-- One registry record, `SamilCommunicator::SamilInverterInformation`.  The values computed
as `float` are kept as the exact rational quotient that the `float` division rounds. -/
structure SamilInverterInformation where
  serialNumber : List Nat
  address : Nat
  addressConfirmed : Bool
  lastSeen : Nat
  isOnline : Bool
  isDTSeries : Bool
  vpv1 : ℚ
  vpv2 : ℚ
  ipv1 : ℚ
  ipv2 : ℚ
  vac1 : ℚ
  vac2 : ℚ
  vac3 : ℚ
  iac1 : ℚ
  iac2 : ℚ
  iac3 : ℚ
  fac1 : ℚ
  fac2 : ℚ
  fac3 : ℚ
  pac : Nat
  workMode : Nat
  temp : ℚ
  eDay : ℚ
  deriving DecidableEq

/-- Modelled from the spec: the member values of a record that has just been declared
(`SamilInverterInformation newInverter;`).  The declaration of the structure is in
`SamilCommunicator.h`, which is not among the sources; the specification gives a new record
`isOnline = false` and no telemetry. -/
def newInverterDefault : SamilInverterInformation :=
  { serialNumber := List.replicate 11 0, address := 0, addressConfirmed := false, lastSeen := 0,
    isOnline := false, isDTSeries := false,
    vpv1 := 0, vpv2 := 0, ipv1 := 0, ipv2 := 0, vac1 := 0, vac2 := 0, vac3 := 0,
    iac1 := 0, iac2 := 0, iac3 := 0, fac1 := 0, fac2 := 0, fac3 := 0,
    pac := 0, workMode := 0, temp := 0, eDay := 0 }

/-- The members of a `SamilCommunicator` object, with the octets written to the serial line
in `serialOut`.  `curReceivePtr` and `numToRead` are declared in the missing header; they are
8-bit counters here, like every counter declared in the source file (`parseIncomingData`
receives `curReceivePtr` as a `char`). -/
structure SamilCommunicator where
  headerBuffer : List Nat
  inputBuffer : List Nat
  inverters : List SamilInverterInformation
  lastUsedAddress : Nat
  startPacketReceived : Bool
  lastReceivedByte : Nat
  curReceivePtr : Nat
  numToRead : Nat
  lastReceived : Nat
  lastDiscoverySent : Nat
  lastInfoUpdateSent : Nat
  serialOut : List Nat
  deriving DecidableEq

/-- Modelled from the spec: the packet timeout `PACKET_TIMEOUT` of the missing header, 500 ms
(the source calls it the "0.5 sec" timeout). -/
def PACKET_TIMEOUT : Nat := 500

/-- Difference of two `unsigned long` clock values, as the 32-bit target computes it. -/
def elapsed (now earlier : Nat) : Nat :=
  (now % 4294967296 + 4294967296 - earlier % 4294967296) % 4294967296

/-- The statement `crc += b` of a `uint16_t` accumulator, run over a sequence of octets. -/
def crcAdd (crc : Nat) (bytes : List Nat) : Nat :=
  bytes.foldl (fun c b => (c + b) % 65536) crc

/-- Replace the record at position `index` by `f` of it (an assignment through
`inverters[index]` or through a pointer to that record). -/
def updateAt (f : SamilInverterInformation → SamilInverterInformation) :
    Nat → List SamilInverterInformation → List SamilInverterInformation
  | _, [] => []
  | 0, r :: rs => f r :: rs
  | index + 1, r :: rs => r :: updateAt f index rs

/-- Position of the first element that satisfies `p`. -/
def firstIndex {α : Type} (p : α → Bool) : List α → Option Nat
  | [] => none
  | x :: xs => if p x then some 0 else (firstIndex p xs).map (· + 1)

/-- The loop `for (char index = 0; index < inverters.size(); ++index)` with a body that
leaves at the first record satisfying `p`.  `some (some i)`: left at index `i`;
`some none`: the loop ran to its end; `none`: the loop never ends, which happens when there
are 256 records or more and none of the first 256 satisfies `p`, because the 8-bit index
goes from 255 back to 0 and stays below the size. -/
def charIndexLoop (p : SamilInverterInformation → Bool)
    (inverters : List SamilInverterInformation) : Option (Option Nat) :=
  match firstIndex p (inverters.take 256) with
  | some index => some (some index)
  | none => if inverters.length < 256 then some none else none

/-- The function `SamilCommunicator::start`, as far as the object is concerned: the fixed part
of the header.  The two macros are in the missing header and are arguments. -/
def start (SAMIL_COMMS_ADDRES SAMIL_COMMS_ADDRESS : Nat) (s : SamilCommunicator) :
    SamilCommunicator :=
  let headerBuffer := ((s.headerBuffer.set 0 0x55).set 1 0xAA).set 2 SAMIL_COMMS_ADDRES
  { s with headerBuffer := headerBuffer.set 3 SAMIL_COMMS_ADDRESS }

/-- The function `SamilCommunicator::stop`. -/
def stop (s : SamilCommunicator) : SamilCommunicator :=
  { s with inverters := [] }

/-- The function `SamilCommunicator::sendData`: the new object and the returned length. -/
def sendData (s : SamilCommunicator) (address controlCode functionCode dataLength : Nat)
    (data : List Nat) : SamilCommunicator × Nat :=
  let headerBuffer :=
    ((((s.headerBuffer.set 4 ((address >>> 8) % 256)).set 5 (address &&& 0xFF)).set 6
      controlCode).set 7 functionCode).set 8 dataLength
  let out := s.serialOut ++ headerBuffer.take 9
  let out := if dataLength ≠ 0 then out ++ data.take dataLength else out
  let crc := crcAdd 0 (headerBuffer.take 9)
  let crc := crcAdd crc (data.take dataLength)
  let high := (crc >>> 8) &&& 0xff
  let low := crc &&& 0xff
  ({ s with headerBuffer := headerBuffer, serialOut := out ++ [high, low] },
    9 + dataLength + 2)

/-- The function `SamilCommunicator::sendDiscovery`. -/
def sendDiscovery (s : SamilCommunicator) : SamilCommunicator :=
  (sendData s 0x00 0x00 0x00 0x00 []).1

/-- The function `SamilCommunicator::getInverterInfoByAddress`; the pointer it returns is the
index of the record. -/
def getInverterInfoByAddress (inverters : List SamilInverterInformation) (address : Nat) :
    Option (Option Nat) :=
  charIndexLoop (fun r => r.address == address) inverters

/-- The function `SamilCommunicator::askInverterForInformation`. -/
def askInverterForInformation (s : SamilCommunicator) (address : Nat) : SamilCommunicator :=
  (sendData s address 0x01 0x02 0 []).1

/-- The function `SamilCommunicator::sendAllocateRegisterAddress`. -/
def sendAllocateRegisterAddress (s : SamilCommunicator) (serialNumber : List Nat)
    (address : Nat) : SamilCommunicator :=
  let RegisterData := serialNumber.take 10 ++ [address]
  (sendData s 0x00 0x00 0x01 11 RegisterData).1

/-- The search `lastUsedAddress++; while (getInverterInfoByAddress(lastUsedAddress) != nullptr)
lastUsedAddress++;` entered with the incremented cursor `address`.  The cursor has 256 values,
so a search that is still running after `fuel = 256` rounds is back where it began and never
ends: `none`. -/
def searchFreeAddress (inverters : List SamilInverterInformation) : Nat → Nat → Option Nat
  | 0, _ => none
  | fuel + 1, address =>
    match getInverterInfoByAddress inverters address with
    | none => none
    | some (some _) => searchFreeAddress inverters fuel ((address + 1) % 256)
    | some none => some address

/-- The test `memcmp(inverters[index].serialNumber, serialNumber, 10) == 0` on the record
`r`. -/
def sameSerial (serialNumber : List Nat) (r : SamilInverterInformation) : Bool :=
  decide (r.serialNumber.take 10 = serialNumber.take 10)

/-- The record `newInverter` of `handleRegistration` before its address is assigned: the
declared record with `addressConfirmed`, `lastSeen`, `isDTSeries` and the zero-terminated
serial number filled in. -/
def newInverter (now : Nat) (serialNumber : List Nat) : SamilInverterInformation :=
  { newInverterDefault with
    addressConfirmed := false, lastSeen := now, isDTSeries := false,
    serialNumber := serialNumber.take 10 ++ [0] }

/-- The function `SamilCommunicator::handleRegistration`. -/
def handleRegistration (now : Nat) (s : SamilCommunicator) (serialNumber : List Nat)
    (length : Nat) : Option SamilCommunicator :=
  if length ≠ 10 then some s
  else
    match charIndexLoop (sameSerial serialNumber) s.inverters with
    | none => none
    | some (some index) =>
      let address := ((s.inverters.get? index).map (·.address)).getD 0
      let inverters :=
        updateAt (fun r => { r with addressConfirmed := false, lastSeen := now }) index
          s.inverters
      some (sendAllocateRegisterAddress { s with inverters := inverters } serialNumber address)
    | some none =>
      match searchFreeAddress s.inverters 256 ((s.lastUsedAddress + 1) % 256) with
      | none => none
      | some address =>
        let newInverter := { newInverter now serialNumber with address := address }
        some (sendAllocateRegisterAddress
          { s with lastUsedAddress := address, inverters := s.inverters ++ [newInverter] }
          serialNumber address)

/-- The function `SamilCommunicator::handleRegistrationConfirmation`. -/
def handleRegistrationConfirmation (now : Nat) (s : SamilCommunicator) (address : Nat) :
    Option SamilCommunicator :=
  match getInverterInfoByAddress s.inverters address with
  | none => none
  | some (some index) =>
    let inverters :=
      updateAt (fun r => { r with addressConfirmed := true, isOnline := false, lastSeen := now })
        index s.inverters
    some (askInverterForInformation { s with inverters := inverters } address)
  | some none => some (askInverterForInformation s address)

/-- The function `SamilCommunicator::bytesToFloat`. -/
def bytesToFloat (bt : List Nat) (factor : Nat) : ℚ :=
  (((bt.getD 0 0 <<< 8) ||| bt.getD 1 0 : Nat) : ℚ) / (factor : ℚ)

/-- The two octets at `bt` as `((unsigned short) bt[0] << 8) | bt[1]`. -/
def bytesToShort (bt : List Nat) : Nat :=
  (bt.getD 0 0 <<< 8) ||| bt.getD 1 0

/-- The assignments of `handleIncomingInformation` to the record it has found (from
`inverter->lastSeen = millis()` to `inverter->isOnline = true`), with the cursor `dtPtr`. -/
def decodeInformation (now : Nat) (data : List Nat) (r : SamilInverterInformation) :
    SamilInverterInformation :=
  let r := { r with lastSeen := now }
  let dtPtr := 0
  let r := { r with vpv1 := bytesToFloat data 10 }
  let dtPtr := dtPtr + 2
  let r := { r with vpv2 := bytesToFloat (data.drop dtPtr) 10 }
  let dtPtr := dtPtr + 2
  let r := { r with ipv1 := bytesToFloat (data.drop dtPtr) 10 }
  let dtPtr := dtPtr + 2
  let r := { r with ipv2 := bytesToFloat (data.drop dtPtr) 10 }
  let dtPtr := dtPtr + 2
  let r := { r with vac1 := bytesToFloat (data.drop dtPtr) 10 }
  let dtPtr := dtPtr + 2
  let (r, dtPtr) :=
    if r.isDTSeries then
      ({ r with vac2 := bytesToFloat (data.drop dtPtr) 10,
                vac3 := bytesToFloat (data.drop (dtPtr + 2)) 10 }, dtPtr + 4)
    else (r, dtPtr)
  let r := { r with iac1 := bytesToFloat (data.drop dtPtr) 10 }
  let dtPtr := dtPtr + 2
  let (r, dtPtr) :=
    if r.isDTSeries then
      ({ r with iac2 := bytesToFloat (data.drop dtPtr) 10,
                iac3 := bytesToFloat (data.drop (dtPtr + 2)) 10 }, dtPtr + 4)
    else (r, dtPtr)
  let r := { r with fac1 := bytesToFloat (data.drop dtPtr) 100 }
  let dtPtr := dtPtr + 2
  let (r, dtPtr) :=
    if r.isDTSeries then
      ({ r with fac2 := bytesToFloat (data.drop dtPtr) 100,
                fac3 := bytesToFloat (data.drop (dtPtr + 2)) 100 }, dtPtr + 4)
    else (r, dtPtr)
  let r := { r with pac := bytesToShort (data.drop dtPtr) }
  let dtPtr := dtPtr + 2
  let r := { r with workMode := bytesToShort (data.drop dtPtr) }
  let dtPtr := dtPtr + 2
  let r := { r with temp := bytesToFloat (data.drop dtPtr) 10 }
  let dtPtr := dtPtr + (if r.isDTSeries then 34 else 26)
  let r := { r with eDay := bytesToFloat (data.drop dtPtr) 10 }
  { r with isOnline := true }

/-- The function `SamilCommunicator::handleIncomingInformation`. -/
def handleIncomingInformation (now : Nat) (s : SamilCommunicator) (address dataLength : Nat)
    (data : List Nat) : Option SamilCommunicator :=
  match getInverterInfoByAddress s.inverters address with
  | none => none
  | some none => some s
  | some (some index) =>
    if dataLength < 44 then some s
    else some { s with inverters := updateAt (decodeInformation now data) index s.inverters }

/-- The function `SamilCommunicator::checkOfflineInverters`; `OFFLINE_TIMEOUT` is a macro of
the missing header and an argument.  The loop has no early exit, so with 256 records or more
its 8-bit index never reaches the size. -/
def checkOfflineInverters (OFFLINE_TIMEOUT now : Nat) (s : SamilCommunicator) :
    Option SamilCommunicator :=
  if s.inverters.length < 256 then
    some { s with inverters := s.inverters.map (fun r =>
      if r.isOnline then
        { r with isOnline := decide (elapsed now r.lastSeen < OFFLINE_TIMEOUT) }
      else r) }
  else none

/-- The checksum test of `parseIncomingData` (from `uint16_t crc = 0x55 + 0xAA` to the
condition of the early `return`, whose negation this is). -/
def checksumMatches (inputBuffer : List Nat) (incomingDataLength : Nat) : Bool :=
  let crc := crcAdd (0x55 + 0xAA) (inputBuffer.take (incomingDataLength - 2))
  let high := (crc >>> 8) &&& 0xff
  let low := crc &&& 0xff
  high == inputBuffer.getD (incomingDataLength - 2) 0 &&
    low == inputBuffer.getD (incomingDataLength - 1) 0

/-- The function `SamilCommunicator::parseIncomingData`. -/
def parseIncomingData (now : Nat) (s : SamilCommunicator) (incomingDataLength : Nat) :
    Option SamilCommunicator :=
  if !checksumMatches s.inputBuffer incomingDataLength then some s
  else if s.inputBuffer.getD 2 0 == 0x00 && s.inputBuffer.getD 3 0 == 0x00 &&
      s.inputBuffer.getD 4 0 == 0x00 && s.inputBuffer.getD 5 0 == 0x80 &&
      s.inputBuffer.getD 6 0 == 0x0A then
    handleRegistration now s (s.inputBuffer.drop 7) 10
  else if s.inputBuffer.getD 2 0 == 0x00 && s.inputBuffer.getD 3 0 == 0x81 then
    handleRegistrationConfirmation now s (s.inputBuffer.getD 0 0)
  else if s.inputBuffer.getD 2 0 == 0x01 && s.inputBuffer.getD 3 0 == 0x81 then
    handleIncomingInformation now s (s.inputBuffer.getD 0 0) (s.inputBuffer.getD 4 0)
      (s.inputBuffer.drop 5)
  else some s

/-- One round of the `while` loop of `checkIncomingData` for the octet `incomingData`, up to
the call of `parseIncomingData`: the object before that call and, when the call is made, its
argument.  The source does not keep `curReceivePtr` below the size of `inputBuffer`; what a
store behind the buffer does is not defined, and the list is left as it is there.  The
properties of the assembler below are about executions in which every store made so far was
inside the buffer; the index of each store is given by `storeIndex`. -/
def receiveByte (s : SamilCommunicator) (incomingData : Nat) :
    SamilCommunicator × Option Nat :=
  if !s.startPacketReceived && (s.lastReceivedByte == 0x55 && incomingData == 0xAA) then
    ({ s with startPacketReceived := true, curReceivePtr := 0, numToRead := 0,
              lastReceivedByte := 0x00 }, none)
  else if s.startPacketReceived then
    let s :=
      if decide (s.numToRead > 0) || decide (s.curReceivePtr < 7) then
        let s := { s with inputBuffer := s.inputBuffer.set s.curReceivePtr incomingData }
        let s := { s with curReceivePtr := (s.curReceivePtr + 1) % 256 }
        if s.curReceivePtr == 7 then
          { s with numToRead := (s.inputBuffer.getD 6 0 + 2) % 256 }
        else if decide (s.curReceivePtr > 5) then
          { s with numToRead := (s.numToRead + 255) % 256 }
        else s
      else s
    if decide (s.curReceivePtr ≥ 7) && s.numToRead == 0 then
      ({ s with startPacketReceived := false }, some s.curReceivePtr)
    else (s, none)
  else ({ s with lastReceivedByte := incomingData }, none)

/-- One round of the `while` loop of `checkIncomingData`. -/
def processByte (now : Nat) (s : SamilCommunicator) (incomingData : Nat) :
    Option SamilCommunicator :=
  match receiveByte s incomingData with
  | (s, none) => some s
  | (s, some incomingDataLength) => parseIncomingData now s incomingDataLength

/-- The `while (samilSerial->available() > 0)` loop of `checkIncomingData` over the octets
that the serial line hands out. -/
def readAvailable (now : Nat) : SamilCommunicator → List Nat → Option SamilCommunicator
  | s, [] => some s
  | s, incomingData :: rest =>
    match processByte now s incomingData with
    | none => none
    | some s => readAvailable now s rest

/-- The function `SamilCommunicator::checkIncomingData`; `available` holds the octets that are
read during the call. -/
def checkIncomingData (now : Nat) (s : SamilCommunicator) (available : List Nat) :
    Option SamilCommunicator :=
  if available ≠ [] then
    (readAvailable now s available).map (fun s => { s with lastReceived := now })
  else if s.startPacketReceived && decide (elapsed now s.lastReceived > PACKET_TIMEOUT) then
    some { s with startPacketReceived := false }
  else some s

/-- The calls of `parseIncomingData` made while the octets of `available` are read: for each
call its argument and the octets of the receive buffer that the argument covers. -/
def dispatched (now : Nat) : SamilCommunicator → List Nat → List (Nat × List Nat)
  | _, [] => []
  | s, incomingData :: rest =>
    match receiveByte s incomingData with
    | (s, none) => dispatched now s rest
    | (s, some incomingDataLength) =>
      (incomingDataLength, s.inputBuffer.take incomingDataLength) ::
        (match parseIncomingData now s incomingDataLength with
         | none => []
         | some s => dispatched now s rest)

/-- The frame layout in the words of the specification: two synchronization octets, the
two-octet master identity, the destination high octet first, control code, function code,
payload length, payload, and the 16-bit sum of all these octets, high octet first. -/
def referenceFrame (m1 m2 d c f : Nat) (p : List Nat) : List Nat :=
  let body := [0x55, 0xAA, m1, m2, d >>> 8, d &&& 0xFF, c, f, p.length] ++ p
  let s := body.sum % 65536
  body ++ [s >>> 8, s &&& 0xFF]

/-- The header buffer holds what `start` puts there (synchronization octets and the master
identity `m1 m2`) and has room for the nine octets that `sendData` sends from it. -/
def HeaderReady (m1 m2 : Nat) (s : SamilCommunicator) : Prop :=
  s.headerBuffer.take 4 = [0x55, 0xAA, m1, m2] ∧ 9 ≤ s.headerBuffer.length

instance (m1 m2 : Nat) (s : SamilCommunicator) : Decidable (HeaderReady m1 m2 s) :=
  inferInstanceAs (Decidable (_ ∧ _))

/-- No record of the registry has the address `a`. -/
def AddressFree (inverters : List SamilInverterInformation) (a : Nat) : Prop :=
  ∀ r ∈ inverters, r.address ≠ a

instance (inverters : List SamilInverterInformation) (a : Nat) :
    Decidable (AddressFree inverters a) :=
  inferInstanceAs (Decidable (∀ r ∈ inverters, r.address ≠ a))

/-- Modelled from the spec: the object right after its construction.  The member initialisers
are in the missing header; the specification starts with an empty registry and an assembler
that waits for the synchronization octets, and the cursor starts at 0 so that the first
address handed out is 1.  The sizes of the two buffers are arguments. -/
def constructed (headerSize BufferSize : Nat) : SamilCommunicator :=
  { headerBuffer := List.replicate headerSize 0, inputBuffer := List.replicate BufferSize 0,
    inverters := [], lastUsedAddress := 0, startPacketReceived := false, lastReceivedByte := 0,
    curReceivePtr := 0, numToRead := 0, lastReceived := 0, lastDiscoverySent := 0,
    lastInfoUpdateSent := 0, serialOut := [] }

/-- A started object with master identity `00 00`, a nine-octet header buffer and a receive
buffer of 96 octets; used for closed examples. -/
def example0 : SamilCommunicator := start 0 0 (constructed 9 96)

/-- The object `example0` with the registry `inverters` and with `frame` at the start of its
receive buffer; used for closed examples. -/
def loaded (inverters : List SamilInverterInformation) (frame : List Nat) : SamilCommunicator :=
  { example0 with
    inverters := inverters, inputBuffer := frame ++ List.replicate (96 - frame.length) 0 }

/-- A record as `handleRegistration` creates it: serial number `S221151415`, address 1, not
confirmed, not online; used for closed examples. -/
def record1 : SamilInverterInformation :=
  { newInverter 0 [0x53, 0x32, 0x32, 0x31, 0x31, 0x35, 0x31, 0x34, 0x31, 0x35] with address := 1 }

/-- A registration confirmation in the frame layout, without the synchronization octets:
source `00 01`, destination `00 00`, control code `00`, function code `81`, no payload,
checksum `01 81`. -/
def confirmationFrame : List Nat := [0x00, 0x01, 0x00, 0x00, 0x00, 0x81, 0x00, 0x01, 0x81]

/-- An information response in the frame layout, without the synchronization octets: source
`00 01`, destination `00 00`, control code `01`, function code `81`, 44 payload octets that
start with `09 60` (240.0 V), checksum `02 17`. -/
def informationFrame : List Nat :=
  [0x00, 0x01, 0x00, 0x00, 0x01, 0x81, 0x2C, 0x09, 0x60] ++ List.replicate 42 0 ++ [0x02, 0x17]

/-- The addresses of the records are pairwise different, and so are their 10-octet serial
identifiers: neither list, taken in registry order, repeats an entry. -/
def KeysUnique (inverters : List SamilInverterInformation) : Prop :=
  (inverters.map (·.address)).Nodup ∧ (inverters.map (fun r => r.serialNumber.take 10)).Nodup

instance (inverters : List SamilInverterInformation) : Decidable (KeysUnique inverters) :=
  inferInstanceAs (Decidable (_ ∧ _))

/-- A call of one of the four functions that work on the registry, with its arguments. -/
inductive RegistryCall where
  | registration (now : Nat) (serialNumber : List Nat)
  | confirmation (now address : Nat)
  | information (now address dataLength : Nat) (data : List Nat)
  | offline (OFFLINE_TIMEOUT now : Nat)

/-- The serial number of a registration request has its 10 octets. -/
def RegistryCall.valid : RegistryCall → Bool
  | .registration _ serialNumber => serialNumber.length == 10
  | _ => true

/-- The call made on the object `s`. -/
def RegistryCall.run (s : SamilCommunicator) : RegistryCall → Option SamilCommunicator
  | .registration now serialNumber => handleRegistration now s serialNumber 10
  | .confirmation now address => handleRegistrationConfirmation now s address
  | .information now address dataLength data =>
    handleIncomingInformation now s address dataLength data
  | .offline OFFLINE_TIMEOUT now => checkOfflineInverters OFFLINE_TIMEOUT now s

/-- The calls made one after the other; `none` when one of them never returns. -/
def runCalls : SamilCommunicator → List RegistryCall → Option SamilCommunicator
  | s, [] => some s
  | s, c :: rest =>
    match c.run s with
    | none => none
    | some s => runCalls s rest

/-- Registration requests for the serial numbers of the list, handled one after the other;
`none` when one of them never returns. -/
def registerAll (now : Nat) : SamilCommunicator → List (List Nat) → Option SamilCommunicator
  | s, [] => some s
  | s, serialNumber :: rest =>
    match handleRegistration now s serialNumber 10 with
    | none => none
    | some s => registerAll now s rest

/-- The 10-octet serial number `i 00 00 00 00 00 00 00 00 00`; used for closed examples. -/
def serialOf (i : Nat) : List Nat := [i, 0, 0, 0, 0, 0, 0, 0, 0, 0]

/-- The addresses handed out so far are 1, 2, ... in registry order and the cursor stands at
the last of them. -/
def Sequential (s : SamilCommunicator) : Prop :=
  s.inverters.map (·.address) = List.range' 1 s.inverters.length
    ∧ s.lastUsedAddress = s.inverters.length

instance (s : SamilCommunicator) : Decidable (Sequential s) :=
  inferInstanceAs (Decidable (_ ∧ _))

/-- One round of the loop of `askAllInvertersForInformation`, for the record at `index`. -/
def askAllStep (s : SamilCommunicator) (index : Nat) : SamilCommunicator :=
  match s.inverters.get? index with
  | none => s
  | some r =>
    if r.addressConfirmed && r.isOnline then askInverterForInformation s r.address else s

/-- The function `SamilCommunicator::askAllInvertersForInformation`.  The loop has no early
exit, so with 256 records or more its 8-bit index never reaches the size. -/
def askAllInvertersForInformation (s : SamilCommunicator) : Option SamilCommunicator :=
  if s.inverters.length < 256 then
    some ((List.range s.inverters.length).foldl askAllStep s)
  else none

/-- The number `256 * P[i] + P[i+1]` that two octets of `P` denote, high octet first. -/
def be16 (P : List Nat) (i : Nat) : Nat := 256 * P.getD i 0 + P.getD (i + 1) 0

/-- The index at which the round of the `while` loop of `checkIncomingData` for the octet
`incomingData` executes `inputBuffer[curReceivePtr] = incomingData`, when it does. -/
def storeIndex (s : SamilCommunicator) (incomingData : Nat) : Option Nat :=
  if !s.startPacketReceived && (s.lastReceivedByte == 0x55 && incomingData == 0xAA) then none
  else if s.startPacketReceived then
    if decide (s.numToRead > 0) || decide (s.curReceivePtr < 7) then some s.curReceivePtr
    else none
  else none

/-- The indices of the receive buffer at which octets are stored while the octets of
`available` are read, in the order of the stores. -/
def stored (now : Nat) : SamilCommunicator → List Nat → List Nat
  | _, [] => []
  | s, incomingData :: rest =>
    (storeIndex s incomingData).toList ++
      (match processByte now s incomingData with
       | none => []
       | some s => stored now s rest)

/-- A frame of 49 octets that `parseIncomingData` hands to the telemetry decoder, followed by
two octets that an earlier, longer frame has left in the receive buffer: octet 0 is the
address 1, octets 2 and 3 are `01 81`, octet 4 declares 44 payload octets, which start at
octet 5; octet 6 is the length octet 40 of the assembler and octets 47 and 48 are the
checksum `01 D6`.  The octets 49 and 50, `02 17`, are not part of the frame.  Used for
closed examples. -/
def staleFrame : List Nat :=
  [0x01, 0x00, 0x01, 0x81, 44, 0x00, 40] ++ List.replicate 40 0 ++ [0x01, 0xD6]
    ++ [0x02, 0x17]

/-- The object `example0` after it has read `55 AA 01 02 03` at the time 1000: a frame is
open, three octets of it are stored; used for closed examples. -/
def stalled : SamilCommunicator :=
  { loaded [] [0x01, 0x02, 0x03] with
    startPacketReceived := true, curReceivePtr := 3, lastReceived := 1000 }

theorem crcAdd_eq (xs : List Nat) : ∀ c, c < 65536 → crcAdd c xs = (c + xs.sum) % 65536 := by
  induction xs with
  | nil => intro c hc; simp [crcAdd]; omega
  | cons x xs ih =>
    intro c hc
    have h := ih ((c + x) % 65536) (Nat.mod_lt _ (by norm_num))
    simp only [crcAdd, List.foldl_cons, List.sum_cons] at h ⊢
    rw [h]; omega

theorem crcAdd_lt (xs : List Nat) (c : Nat) (hc : c < 65536) : crcAdd c xs < 65536 := by
  rw [crcAdd_eq xs c hc]; omega

theorem and_ff (x : Nat) : x &&& 0xff = x % 256 := Nat.and_pow_two_sub_one_eq_mod x 8

theorem shr8 (x : Nat) : x >>> 8 = x / 256 := Nat.shiftRight_eq_div_pow x 8

theorem header_shape {m1 m2 : Nat} {hb : List Nat} (h : hb.take 4 = [0x55, 0xAA, m1, m2])
    (hl : 9 ≤ hb.length) :
    ∃ x4 x5 x6 x7 x8 rest,
      hb = 0x55 :: 0xAA :: m1 :: m2 :: x4 :: x5 :: x6 :: x7 :: x8 :: rest := by
  match hb, h, hl with
  | a0 :: a1 :: a2 :: a3 :: a4 :: a5 :: a6 :: a7 :: a8 :: rest, h, _ =>
    simp only [List.take_succ_cons, List.take_zero, List.cons.injEq, and_true] at h
    obtain ⟨rfl, rfl, rfl, rfl⟩ := h
    exact ⟨a4, a5, a6, a7, a8, rest, rfl⟩

/-- What `sendData` does to the object: it appends the reference frame to the serial output,
keeps the header ready and touches neither registry, cursor, receive buffer nor assembler. -/
theorem sendData_spec {m1 m2 : Nat} {s : SamilCommunicator} (hs : HeaderReady m1 m2 s)
    (d c f : Nat) (data : List Nat) (hd : d < 65536) :
    (sendData s d c f data.length data).1.serialOut
        = s.serialOut ++ referenceFrame m1 m2 d c f data
      ∧ HeaderReady m1 m2 (sendData s d c f data.length data).1
      ∧ (sendData s d c f data.length data).1.inverters = s.inverters
      ∧ (sendData s d c f data.length data).1.lastUsedAddress = s.lastUsedAddress
      ∧ (sendData s d c f data.length data).1.inputBuffer = s.inputBuffer
      ∧ (sendData s d c f data.length data).1.startPacketReceived = s.startPacketReceived := by
  obtain ⟨x4, x5, x6, x7, x8, rest, hb⟩ := header_shape hs.1 hs.2
  have hd8 : d >>> 8 % 256 = d >>> 8 := by rw [shr8]; omega
  refine ⟨?_, ?_, rfl, rfl, rfl, rfl⟩
  · simp only [sendData, hb, List.set_cons_succ, List.set_cons_zero, List.take_succ_cons,
      List.take_zero, List.take_length, referenceFrame, hd8]
    rw [crcAdd_eq _ _ (crcAdd_lt _ _ (by norm_num)), crcAdd_eq _ _ (by norm_num)]
    have e : ∀ x : Nat, x < 65536 → (x >>> 8) &&& 0xff = x >>> 8 := by
      intro x hx; rw [and_ff, shr8]; omega
    rw [e _ (Nat.mod_lt _ (by norm_num))]
    by_cases h0 : data.length = 0
    · have : data = [] := List.length_eq_zero.mp h0
      subst this
      simp
    · simp [h0]
      constructor <;> congr 1 <;> omega
  · simp only [HeaderReady, sendData, hb, List.set_cons_succ, List.set_cons_zero,
      List.take_succ_cons, List.take_zero, List.length_cons]
    exact ⟨trivial, by omega⟩

theorem start_headerReady (m1 m2 : Nat) (s : SamilCommunicator) (h : 9 ≤ s.headerBuffer.length) :
    HeaderReady m1 m2 (start m1 m2 s) := by
  match hb : s.headerBuffer, h with
  | a0 :: a1 :: a2 :: a3 :: a4 :: a5 :: a6 :: a7 :: a8 :: rest, _ =>
    simp [HeaderReady, start, hb]

theorem getD_of_take {buf l : List Nat} {n i : Nat} (h : buf.take n = l) (hi : i < n) :
    buf.getD i 0 = l.getD i 0 := by
  subst h
  simp [List.getD_eq_getElem?_getD, List.getElem?_take, hi]

theorem take_of_take {buf l : List Nat} {n k : Nat} (h : buf.take n = l) (hk : k ≤ n) :
    buf.take k = l.take k := by
  subst h
  rw [List.take_take, Nat.min_eq_left hk]

/-- The checksum test on a receive buffer that starts with `body` followed by the two octets
`hi lo`: it passes exactly when `hi lo` is the 16-bit sum of `0x55`, `0xAA` and `body`. -/
theorem checksumMatches_frame {buf body : List Nat} {hi lo : Nat}
    (h : buf.take (body.length + 2) = body ++ [hi, lo]) :
    checksumMatches buf (body.length + 2)
      = decide (hi = (0x55 + 0xAA + body.sum) % 65536 / 256
          ∧ lo = (0x55 + 0xAA + body.sum) % 65536 % 256) := by
  have h1 : buf.take body.length = body := by
    rw [take_of_take h (by omega)]; simp
  have h2 : buf.getD body.length 0 = hi := by
    rw [getD_of_take h (by omega), List.getD_eq_getElem?_getD,
      List.getElem?_append_right (le_refl _)]
    simp
  have h3 : buf.getD (body.length + 1) 0 = lo := by
    rw [getD_of_take h (by omega), List.getD_eq_getElem?_getD,
      List.getElem?_append_right (by omega)]
    simp
  simp only [checksumMatches, Nat.add_sub_cancel, h1, h2,
    show body.length + 2 - 1 = body.length + 1 from rfl, h3]
  rw [crcAdd_eq _ _ (by norm_num), and_ff, and_ff, shr8]
  have : (85 + 170 + body.sum) % 65536 / 256 % 256 = (85 + 170 + body.sum) % 65536 / 256 := by
    omega
  rw [this]
  generalize (85 + 170 + body.sum) % 65536 / 256 = A
  generalize (85 + 170 + body.sum) % 65536 % 256 = B
  rw [Bool.eq_iff_iff]
  simp only [Bool.and_eq_true, beq_iff_eq, decide_eq_true_eq]
  exact ⟨fun ⟨a, b⟩ => ⟨a.symm, b.symm⟩, fun ⟨a, b⟩ => ⟨a.symm, b.symm⟩⟩

/-! ## Registry scans -/

theorem firstIndex_eq_none {α : Type} (p : α → Bool) (xs : List α) :
    firstIndex p xs = none ↔ ∀ x ∈ xs, p x = false := by
  induction xs with
  | nil => simp [firstIndex]
  | cons x xs ih =>
    by_cases hx : p x = true
    · simp [firstIndex, hx]
    · simp only [Bool.not_eq_true] at hx
      simp [firstIndex, hx, ih]

theorem firstIndex_append {α : Type} (p : α → Bool) (pre : List α) (x : α) (post : List α)
    (hpre : ∀ y ∈ pre, p y = false) (hx : p x = true) :
    firstIndex p (pre ++ x :: post) = some pre.length := by
  induction pre with
  | nil => simp [firstIndex, hx]
  | cons y ys ih =>
    have hy : p y = false := hpre y (List.mem_cons_self _ _)
    have := ih (fun z hz => hpre z (List.mem_cons_of_mem _ hz))
    simp [firstIndex, hy, this]

theorem firstIndex_some {α : Type} (p : α → Bool) (xs : List α) (i : Nat)
    (h : firstIndex p xs = some i) :
    ∃ pre x post, xs = pre ++ x :: post ∧ pre.length = i ∧ p x = true
      ∧ ∀ y ∈ pre, p y = false := by
  induction xs generalizing i with
  | nil => simp [firstIndex] at h
  | cons x xs ih =>
    by_cases hx : p x = true
    · simp only [firstIndex, hx, if_true, Option.some.injEq] at h
      exact ⟨[], x, xs, rfl, by simpa using h, hx, by simp⟩
    · simp only [Bool.not_eq_true] at hx
      simp only [firstIndex, hx, Bool.false_eq_true, if_false, Option.map_eq_some'] at h
      obtain ⟨j, hj, rfl⟩ := h
      obtain ⟨pre, y, post, rfl, hl, hy, hpre⟩ := ih j hj
      refine ⟨x :: pre, y, post, rfl, by simp [hl], hy, ?_⟩
      intro z hz
      rcases List.mem_cons.mp hz with rfl | hz
      · exact hx
      · exact hpre z hz

theorem charIndexLoop_of_lt (p : SamilInverterInformation → Bool)
    (inverters : List SamilInverterInformation) (h : inverters.length < 256) :
    charIndexLoop p inverters = some (firstIndex p inverters) := by
  have ht : inverters.take 256 = inverters := List.take_of_length_le (by omega)
  unfold charIndexLoop
  rw [ht]
  cases firstIndex p inverters <;> simp [h]

theorem charIndexLoop_found (p : SamilInverterInformation → Bool)
    (pre : List SamilInverterInformation) (x : SamilInverterInformation)
    (post : List SamilInverterInformation) (hlen : pre.length < 256)
    (hpre : ∀ y ∈ pre, p y = false) (hx : p x = true) :
    charIndexLoop p (pre ++ x :: post) = some (some pre.length) := by
  have ht : (pre ++ x :: post).take 256 = pre ++ x :: post.take (255 - pre.length) := by
    rw [List.take_append_eq_append_take, List.take_of_length_le (by omega)]
    congr 1
    obtain ⟨k, hk⟩ : ∃ k, 256 - pre.length = k + 1 := ⟨255 - pre.length, by omega⟩
    rw [hk, List.take_succ_cons]
    congr 2
    omega
  unfold charIndexLoop
  rw [ht, firstIndex_append p pre x _ hpre hx]

theorem charIndexLoop_none (p : SamilInverterInformation → Bool)
    (inverters : List SamilInverterInformation) (h : inverters.length < 256)
    (hp : ∀ y ∈ inverters, p y = false) :
    charIndexLoop p inverters = some none := by
  rw [charIndexLoop_of_lt p inverters h, (firstIndex_eq_none p inverters).mpr hp]

theorem updateAt_append (f : SamilInverterInformation → SamilInverterInformation)
    (pre : List SamilInverterInformation) (x : SamilInverterInformation)
    (post : List SamilInverterInformation) :
    updateAt f pre.length (pre ++ x :: post) = pre ++ f x :: post := by
  induction pre with
  | nil => rfl
  | cons y ys ih => simp [updateAt, ih]

theorem get?_append_length (pre : List SamilInverterInformation) (x : SamilInverterInformation)
    (post : List SamilInverterInformation) : (pre ++ x :: post).get? pre.length = some x := by
  induction pre with
  | nil => rfl
  | cons y ys ih => simpa using ih

theorem updateAt_map {β : Type} (g : SamilInverterInformation → β)
    (f : SamilInverterInformation → SamilInverterInformation) (hf : ∀ r, g (f r) = g r)
    (i : Nat) (xs : List SamilInverterInformation) : (updateAt f i xs).map g = xs.map g := by
  induction xs generalizing i with
  | nil => cases i <;> simp [updateAt]
  | cons x xs ih =>
    cases i with
    | zero => simp [updateAt, hf]
    | succ i => simp [updateAt, ih]

theorem updateAt_length (f : SamilInverterInformation → SamilInverterInformation)
    (i : Nat) (xs : List SamilInverterInformation) : (updateAt f i xs).length = xs.length := by
  have := congrArg List.length (updateAt_map (fun _ => ()) f (fun _ => rfl) i xs)
  simpa using this

/-! ## Address search -/

theorem getInverterInfoByAddress_free (inverters : List SamilInverterInformation) (a : Nat)
    (hlen : inverters.length < 256) (h : AddressFree inverters a) :
    getInverterInfoByAddress inverters a = some none := by
  unfold getInverterInfoByAddress
  apply charIndexLoop_none _ _ hlen
  intro y hy
  simpa using h y hy

theorem getInverterInfoByAddress_eq_none (inverters : List SamilInverterInformation) (a : Nat)
    (hlen : inverters.length < 256) (h : getInverterInfoByAddress inverters a = some none) :
    AddressFree inverters a := by
  unfold getInverterInfoByAddress at h
  rw [charIndexLoop_of_lt _ _ hlen] at h
  have h1 := (firstIndex_eq_none _ _).mp (Option.some.inj h)
  intro r hr
  simpa using h1 r hr

theorem getInverterInfoByAddress_used (inverters : List SamilInverterInformation) (a : Nat)
    (hlen : inverters.length < 256) (h : ¬ AddressFree inverters a) :
    ∃ i, getInverterInfoByAddress inverters a = some (some i) := by
  unfold getInverterInfoByAddress
  rw [charIndexLoop_of_lt _ _ hlen]
  cases hfi : firstIndex (fun r => r.address == a) inverters with
  | some i => exact ⟨i, rfl⟩
  | none =>
    exfalso
    apply h
    intro r hr
    simpa using (firstIndex_eq_none _ _).mp hfi r hr

theorem searchFreeAddress_here (inverters : List SamilInverterInformation) (fuel a : Nat)
    (hlen : inverters.length < 256) (h : AddressFree inverters a) :
    searchFreeAddress inverters (fuel + 1) a = some a := by
  simp [searchFreeAddress, getInverterInfoByAddress_free inverters a hlen h]

theorem searchFreeAddress_sound (inverters : List SamilInverterInformation)
    (hlen : inverters.length < 256) (fuel : Nat) :
    ∀ c a, c < 256 → searchFreeAddress inverters fuel c = some a →
      a < 256 ∧ AddressFree inverters a := by
  induction fuel with
  | zero => intro c a _ h; simp [searchFreeAddress] at h
  | succ fuel ih =>
    intro c a hc h
    by_cases hfree : AddressFree inverters c
    · rw [searchFreeAddress_here inverters fuel c hlen hfree] at h
      cases h
      exact ⟨hc, hfree⟩
    · obtain ⟨i, hi⟩ := getInverterInfoByAddress_used inverters c hlen hfree
      simp only [searchFreeAddress, hi] at h
      exact ih _ a (Nat.mod_lt _ (by norm_num)) h

theorem searchFreeAddress_reaches (inverters : List SamilInverterInformation)
    (hlen : inverters.length < 256) (k : Nat) :
    ∀ fuel c, k < fuel → AddressFree inverters ((c + k) % 256) → c < 256 →
      ∃ a, searchFreeAddress inverters fuel c = some a := by
  induction k with
  | zero =>
    intro fuel c hk hfree hc
    obtain ⟨f, rfl⟩ : ∃ f, fuel = f + 1 := ⟨fuel - 1, by omega⟩
    rw [Nat.add_zero, Nat.mod_eq_of_lt hc] at hfree
    exact ⟨c, searchFreeAddress_here inverters f c hlen hfree⟩
  | succ k ih =>
    intro fuel c hk hfree hc
    obtain ⟨f, rfl⟩ : ∃ f, fuel = f + 1 := ⟨fuel - 1, by omega⟩
    by_cases hhere : AddressFree inverters c
    · exact ⟨c, searchFreeAddress_here inverters f c hlen hhere⟩
    · obtain ⟨i, hi⟩ := getInverterInfoByAddress_used inverters c hlen hhere
      simp only [searchFreeAddress, hi]
      apply ih f _ (by omega) _ (Nat.mod_lt _ (by norm_num))
      have : ((c + 1) % 256 + k) % 256 = (c + (k + 1)) % 256 := by omega
      rw [this]; exact hfree

/-- The address search ends whenever some address is free, and what it returns is a free
8-bit address. -/
theorem searchFreeAddress_total (inverters : List SamilInverterInformation)
    (hlen : inverters.length < 256) (c a : Nat) (hc : c < 256) (ha : a < 256)
    (hfree : AddressFree inverters a) :
    ∃ b, searchFreeAddress inverters 256 c = some b ∧ b < 256 ∧ AddressFree inverters b := by
  have hk : (c + (a + 256 - c) % 256) % 256 = a := by omega
  obtain ⟨b, hb⟩ := searchFreeAddress_reaches inverters hlen ((a + 256 - c) % 256) 256 c
    (Nat.mod_lt _ (by norm_num)) (by rw [hk]; exact hfree) hc
  exact ⟨b, hb, searchFreeAddress_sound inverters hlen 256 c b hc hb⟩

/-- Fewer than 256 records leave one of the 256 addresses free. -/
theorem exists_addressFree (inverters : List SamilInverterInformation)
    (hlen : inverters.length < 256) : ∃ a, a < 256 ∧ AddressFree inverters a := by
  by_contra hno
  have hall : ∀ a, a < 256 → a ∈ (inverters.map (·.address)).toFinset := by
    intro a ha
    by_contra hnot
    apply hno
    refine ⟨a, ha, ?_⟩
    intro r hr heq
    apply hnot
    simp only [List.mem_toFinset, List.mem_map]
    exact ⟨r, hr, heq⟩
  have hsub : Finset.range 256 ⊆ (inverters.map (·.address)).toFinset := by
    intro a ha
    exact hall a (Finset.mem_range.mp ha)
  have h1 := Finset.card_le_card hsub
  have h2 := List.toFinset_card_le (inverters.map (·.address))
  simp only [Finset.card_range, List.length_map] at h1 h2
  omega

theorem searchFreeAddress_mono (inverters : List SamilInverterInformation) (fuel : Nat) :
    ∀ c a more, searchFreeAddress inverters fuel c = some a →
      searchFreeAddress inverters (fuel + more) c = some a := by
  induction fuel with
  | zero => intro c a more h; simp [searchFreeAddress] at h
  | succ fuel ih =>
    intro c a more h
    rw [show fuel + 1 + more = (fuel + more) + 1 by omega]
    simp only [searchFreeAddress] at h ⊢
    cases hfound : getInverterInfoByAddress inverters c with
    | none => rw [hfound] at h; simp at h
    | some found =>
      rw [hfound] at h
      cases found with
      | none => exact h
      | some i => exact ih _ a more h

/-- The bound of 256 rounds loses nothing: an address that the search reaches after any number
of rounds is reached within 256 rounds, so `none` at 256 rounds is the search that never
ends. -/
theorem searchFreeAddress_fuel (inverters : List SamilInverterInformation)
    (hlen : inverters.length < 256) (fuel c a : Nat) (hc : c < 256)
    (h : searchFreeAddress inverters fuel c = some a) :
    searchFreeAddress inverters 256 c = some a := by
  obtain ⟨ha, hfree⟩ := searchFreeAddress_sound inverters hlen fuel c a hc h
  obtain ⟨b, hb, _, _⟩ := searchFreeAddress_total inverters hlen c a hc ha hfree
  by_cases hle : fuel ≤ 256
  · have := searchFreeAddress_mono inverters fuel c a (256 - fuel) h
    rwa [show fuel + (256 - fuel) = 256 by omega] at this
  · have := searchFreeAddress_mono inverters 256 c b (fuel - 256) hb
    rw [show 256 + (fuel - 256) = fuel by omega, h] at this
    rw [hb, ← Option.some.inj this]

theorem charIndexLoop_some (p : SamilInverterInformation → Bool)
    (inverters : List SamilInverterInformation) (i : Nat)
    (h : charIndexLoop p inverters = some (some i)) :
    ∃ pre x post, inverters = pre ++ x :: post ∧ pre.length = i ∧ i < 256 ∧ p x = true
      ∧ ∀ y ∈ pre, p y = false := by
  unfold charIndexLoop at h
  cases hfi : firstIndex p (inverters.take 256) with
  | none =>
    rw [hfi] at h
    by_cases hl : inverters.length < 256 <;> simp [hl] at h
  | some j =>
    rw [hfi] at h
    simp only [Option.some.injEq] at h
    subst h
    obtain ⟨pre, x, post, hsplit, hlen, hx, hpre⟩ := firstIndex_some p _ j hfi
    refine ⟨pre, x, post ++ inverters.drop 256, ?_, hlen, ?_, hx, hpre⟩
    · have := List.take_append_drop 256 inverters
      rw [hsplit] at this
      simpa using this.symm
    · have := congrArg List.length hsplit
      simp only [List.length_take, List.length_append, List.length_cons] at this
      omega

theorem charIndexLoop_some_none (p : SamilInverterInformation → Bool)
    (inverters : List SamilInverterInformation) (h : charIndexLoop p inverters = some none) :
    inverters.length < 256 ∧ ∀ y ∈ inverters, p y = false := by
  unfold charIndexLoop at h
  cases hfi : firstIndex p (inverters.take 256) with
  | some j => rw [hfi] at h; simp at h
  | none =>
    rw [hfi] at h
    by_cases hl : inverters.length < 256
    · refine ⟨hl, ?_⟩
      have ht : inverters.take 256 = inverters := List.take_of_length_le (by omega)
      rw [ht] at hfi
      exact (firstIndex_eq_none p inverters).mp hfi
    · simp [hl] at h

/-! ## Registration -/

theorem sendAllocateRegisterAddress_spec (m1 m2 : Nat) (s : SamilCommunicator)
    (hs : HeaderReady m1 m2 s) (S : List Nat) (a : Nat) (hS : 10 ≤ S.length) :
    (sendAllocateRegisterAddress s S a).serialOut
        = s.serialOut ++ referenceFrame m1 m2 0 0 1 (S.take 10 ++ [a])
      ∧ HeaderReady m1 m2 (sendAllocateRegisterAddress s S a) := by
  have hl : (S.take 10 ++ [a]).length = 11 := by simp; omega
  have h := sendData_spec hs 0 0 1 (S.take 10 ++ [a]) (by norm_num)
  rw [hl] at h
  exact ⟨h.1, h.2.1⟩

theorem sendAllocateRegisterAddress_inverters (s : SamilCommunicator) (S : List Nat) (a : Nat) :
    (sendAllocateRegisterAddress s S a).inverters = s.inverters := rfl

theorem sendAllocateRegisterAddress_cursor (s : SamilCommunicator) (S : List Nat) (a : Nat) :
    (sendAllocateRegisterAddress s S a).lastUsedAddress = s.lastUsedAddress := rfl

/-- Registration of a serial number that a record holds. -/
theorem handleRegistration_known (now : Nat) (s : SamilCommunicator) (S : List Nat)
    (pre : List SamilInverterInformation) (r : SamilInverterInformation)
    (post : List SamilInverterInformation) (hreg : s.inverters = pre ++ r :: post)
    (hpre : pre.length < 256) (hfirst : ∀ q ∈ pre, sameSerial S q = false)
    (hr : sameSerial S r = true) :
    handleRegistration now s S 10 = some (sendAllocateRegisterAddress
      { s with inverters := pre ++ { r with addressConfirmed := false, lastSeen := now } :: post }
      S r.address) := by
  unfold handleRegistration
  rw [hreg, charIndexLoop_found _ pre r post hpre hfirst hr]
  simp only [ne_eq, not_true_eq_false, if_false, get?_append_length, Option.map_some',
    Option.getD_some, updateAt_append]

/-- Registration of a serial number that no record holds. -/
theorem handleRegistration_new (now : Nat) (s : SamilCommunicator) (S : List Nat)
    (hlen : s.inverters.length < 256) (hnew : ∀ q ∈ s.inverters, sameSerial S q = false)
    (a : Nat) (ha : searchFreeAddress s.inverters 256 ((s.lastUsedAddress + 1) % 256) = some a) :
    handleRegistration now s S 10 = some (sendAllocateRegisterAddress
      { s with lastUsedAddress := a,
               inverters := s.inverters ++ [{ newInverter now S with address := a }] } S a) := by
  unfold handleRegistration
  rw [charIndexLoop_none _ _ hlen hnew]
  simp only [ne_eq, not_true_eq_false, if_false, ha]

/-- The two ways in which `handleRegistration` returns. -/
theorem handleRegistration_cases (now : Nat) (s s1 : SamilCommunicator) (S : List Nat)
    (h : handleRegistration now s S 10 = some s1) :
    (∃ pre r post, s.inverters = pre ++ r :: post ∧ pre.length < 256
        ∧ (∀ q ∈ pre, sameSerial S q = false) ∧ sameSerial S r = true
        ∧ s1 = sendAllocateRegisterAddress
            { s with inverters :=
                pre ++ { r with addressConfirmed := false, lastSeen := now } :: post }
            S r.address)
    ∨ (s.inverters.length < 256 ∧ (∀ q ∈ s.inverters, sameSerial S q = false)
        ∧ ∃ a, searchFreeAddress s.inverters 256 ((s.lastUsedAddress + 1) % 256) = some a
          ∧ s1 = sendAllocateRegisterAddress
              { s with lastUsedAddress := a,
                       inverters := s.inverters ++ [{ newInverter now S with address := a }] }
              S a) := by
  cases hscan : charIndexLoop (sameSerial S) s.inverters with
  | none => simp [handleRegistration, hscan] at h
  | some found =>
    cases found with
    | some i =>
      left
      obtain ⟨pre, r, post, hsplit, hl, hi, hr, hpre⟩ := charIndexLoop_some _ _ i hscan
      refine ⟨pre, r, post, hsplit, by omega, hpre, hr, ?_⟩
      rw [handleRegistration_known now s S pre r post hsplit (by omega) hpre hr] at h
      exact (Option.some.inj h).symm
    | none =>
      right
      obtain ⟨hlen, hnew⟩ := charIndexLoop_some_none _ _ hscan
      refine ⟨hlen, hnew, ?_⟩
      cases hsearch : searchFreeAddress s.inverters 256 ((s.lastUsedAddress + 1) % 256) with
      | none => simp [handleRegistration, hscan, hsearch] at h
      | some a =>
        rw [handleRegistration_new now s S hlen hnew a hsearch] at h
        exact ⟨a, rfl, (Option.some.inj h).symm⟩

theorem sameSerial_iff (S : List Nat) (hS : S.length = 10) (r : SamilInverterInformation) :
    sameSerial S r = true ↔ r.serialNumber.take 10 = S := by
  simp [sameSerial, List.take_of_length_le (le_of_eq hS)]

theorem sameSerial_false_iff (S : List Nat) (hS : S.length = 10) (r : SamilInverterInformation) :
    sameSerial S r = false ↔ r.serialNumber.take 10 ≠ S := by
  simp [sameSerial, List.take_of_length_le (le_of_eq hS)]

/-! ## Receive assembler -/

theorem set_append_cons (l1 : List Nat) (x b : Nat) (l2 : List Nat) :
    (l1 ++ x :: l2).set l1.length b = l1 ++ b :: l2 := by
  induction l1 with
  | nil => rfl
  | cons y ys ih => simp [ih]

/-- One octet of payload or checksum: it is stored, and the frame is handed to
`parseIncomingData` when it was the last octet awaited. -/
theorem receiveByte_store (s : SamilCommunicator) (b : Nat) (stored : List Nat) (t : Nat)
    (tail : List Nat) (hstart : s.startPacketReceived = true)
    (hptr : s.curReceivePtr = stored.length) (hbuf : s.inputBuffer = stored ++ t :: tail)
    (h7 : 7 ≤ stored.length) (hn : 0 < s.numToRead) (hn2 : s.numToRead ≤ 255)
    (hlen : stored.length + 1 ≤ 255) :
    receiveByte s b =
      if s.numToRead = 1 then
        ({ s with inputBuffer := stored ++ b :: tail, curReceivePtr := stored.length + 1,
                  numToRead := 0, startPacketReceived := false }, some (stored.length + 1))
      else
        ({ s with inputBuffer := stored ++ b :: tail, curReceivePtr := stored.length + 1,
                  numToRead := s.numToRead - 1 }, none) := by
  have e1 : (stored.length + 1) % 256 = stored.length + 1 := Nat.mod_eq_of_lt (by omega)
  have e2 : (s.numToRead + 255) % 256 = s.numToRead - 1 := by omega
  have e3 : (stored.length + 1 == 7) = false := by simp; omega
  have e4 : decide (stored.length + 1 > 5) = true := by simp; omega
  have e5 : decide (stored.length + 1 ≥ 7) = true := by simp; omega
  have e6 : decide (s.numToRead > 0) = true := by simp; omega
  unfold receiveByte
  simp only [hstart, hptr, hbuf, set_append_cons, e1, e2, e3, e4, e5, e6, Bool.not_true,
    Bool.false_and, Bool.true_or, Bool.true_and, if_true, if_false, Bool.false_eq_true]
  by_cases h1 : s.numToRead = 1
  · simp [h1]
  · have : ¬ (s.numToRead - 1 = 0) := by omega
    simp [h1, this]

/-- The octets after the header: when the countdown `numToRead` equals their number, they
are stored behind what has been stored, nothing is dispatched before the last one, and the
last one hands the whole frame to `parseIncomingData`. -/
theorem receive_payload (now : Nat) (bs : List Nat) :
    ∀ (s : SamilCommunicator) (stored tail rest : List Nat), bs ≠ [] →
      s.startPacketReceived = true → s.curReceivePtr = stored.length →
      s.inputBuffer = stored ++ tail → 7 ≤ stored.length → s.numToRead = bs.length →
      bs.length ≤ tail.length → stored.length + bs.length ≤ 255 →
      readAvailable now s (bs ++ rest)
          = (match parseIncomingData now
                { s with inputBuffer := stored ++ bs ++ tail.drop bs.length,
                         curReceivePtr := stored.length + bs.length,
                         numToRead := 0, startPacketReceived := false }
                (stored.length + bs.length) with
             | none => none
             | some s2 => readAvailable now s2 rest)
        ∧ dispatched now s (bs ++ rest)
          = (stored.length + bs.length, stored ++ bs) ::
              (match parseIncomingData now
                { s with inputBuffer := stored ++ bs ++ tail.drop bs.length,
                         curReceivePtr := stored.length + bs.length,
                         numToRead := 0, startPacketReceived := false }
                (stored.length + bs.length) with
               | none => []
               | some s2 => dispatched now s2 rest) := by
  induction bs with
  | nil => intro s stored tail rest h; exact absurd rfl h
  | cons b bs ih =>
    intro s stored tail rest _ hstart hptr hbuf h7 hn htail hlen
    simp only [List.length_cons] at hn htail hlen
    obtain ⟨t, tail1, rfl⟩ : ∃ t tail1, tail = t :: tail1 := by
      cases tail with
      | nil => simp at htail
      | cons t tail1 => exact ⟨t, tail1, rfl⟩
    simp only [List.length_cons] at htail
    have hstep := receiveByte_store s b stored t tail1 hstart hptr hbuf h7 (by omega) (by omega)
      (by omega)
    by_cases hbs : bs = []
    · subst hbs
      simp only [List.length_nil, Nat.zero_add] at hn
      simp only [hn, if_true] at hstep
      simp only [List.cons_append, List.nil_append, readAvailable, processByte, dispatched,
        hstep, List.length_cons, List.length_nil, Nat.zero_add, List.drop_succ_cons,
        List.drop_zero, List.append_assoc, List.singleton_append, true_and]
      have : List.take (stored.length + 1) (stored ++ b :: tail1) = stored ++ [b] := by
        rw [List.take_append_eq_append_take, List.take_of_length_le (by omega)]
        simp
      rw [this]
      generalize parseIncomingData now _ _ = res
      cases res <;> simp
    · have hne : ¬ (s.numToRead = 1) := by
        have : bs.length ≠ 0 := fun h => hbs (List.length_eq_zero.mp h)
        omega
      simp only [hne, if_false] at hstep
      have hih := ih { s with inputBuffer := stored ++ b :: tail1,
                              curReceivePtr := stored.length + 1,
                              numToRead := s.numToRead - 1 }
        (stored ++ [b]) tail1 rest hbs hstart (by simp) (by simp) (by simp; omega)
        (by simp only; omega) (by omega) (by simp; omega)
      have e1 : (stored ++ [b]).length + bs.length = stored.length + (bs.length + 1) := by
        simp; omega
      have e2 : stored ++ [b] ++ bs ++ List.drop bs.length tail1
          = stored ++ b :: bs ++ List.drop (bs.length + 1) (t :: tail1) := by simp
      have e3 : stored ++ [b] ++ bs = stored ++ b :: bs := by simp
      rw [e1, e2, e3] at hih
      simp only [List.cons_append, readAvailable, processByte, dispatched, hstep,
        List.length_cons]
      exact hih

/-- The two synchronization octets, met while waiting for them, open a frame. -/
theorem receive_sync (now : Nat) (s : SamilCommunicator) (rest : List Nat)
    (hstart : s.startPacketReceived = false) :
    readAvailable now s (0x55 :: 0xAA :: rest)
        = readAvailable now { s with startPacketReceived := true, curReceivePtr := 0,
                                     numToRead := 0, lastReceivedByte := 0 } rest
      ∧ dispatched now s (0x55 :: 0xAA :: rest)
        = dispatched now { s with startPacketReceived := true, curReceivePtr := 0,
                                  numToRead := 0, lastReceivedByte := 0 } rest := by
  simp [readAvailable, dispatched, processByte, receiveByte, hstart]

/-- The seven header octets that follow the synchronization octets are stored at the start of
the receive buffer and set the countdown to the payload length plus two. -/
theorem receive_header (now : Nat) (s : SamilCommunicator) (h0 h1 h2 h3 h4 h5 h6 : Nat)
    (t0 t1 t2 t3 t4 t5 t6 : Nat) (tail rest : List Nat)
    (hstart : s.startPacketReceived = true) (hptr : s.curReceivePtr = 0)
    (hn : s.numToRead = 0)
    (hbuf : s.inputBuffer = t0 :: t1 :: t2 :: t3 :: t4 :: t5 :: t6 :: tail)
    (hL : h6 + 2 < 256) :
    readAvailable now s (h0 :: h1 :: h2 :: h3 :: h4 :: h5 :: h6 :: rest)
        = readAvailable now
            { s with inputBuffer := h0 :: h1 :: h2 :: h3 :: h4 :: h5 :: h6 :: tail,
                     curReceivePtr := 7, numToRead := h6 + 2 } rest
      ∧ dispatched now s (h0 :: h1 :: h2 :: h3 :: h4 :: h5 :: h6 :: rest)
        = dispatched now
            { s with inputBuffer := h0 :: h1 :: h2 :: h3 :: h4 :: h5 :: h6 :: tail,
                     curReceivePtr := 7, numToRead := h6 + 2 } rest := by
  have e : (h6 + 2) % 256 = h6 + 2 := Nat.mod_eq_of_lt hL
  simp [readAvailable, dispatched, processByte, receiveByte, hstart, hptr, hn, hbuf, e]

theorem list_shape7 (l : List Nat) (h : 7 ≤ l.length) :
    ∃ t0 t1 t2 t3 t4 t5 t6 tail, l = t0 :: t1 :: t2 :: t3 :: t4 :: t5 :: t6 :: tail := by
  match l, h with
  | t0 :: t1 :: t2 :: t3 :: t4 :: t5 :: t6 :: tail, _ =>
    exact ⟨t0, t1, t2, t3, t4, t5, t6, tail, rfl⟩

/-- A whole frame met while waiting for synchronization: the octets after the two
synchronization octets fill the receive buffer from its start and the frame is handed to
`parseIncomingData` once, with its length, when its last octet has come. -/
theorem receive_frame (now : Nat) (s : SamilCommunicator) (h0 h1 h2 h3 h4 h5 h6 : Nat)
    (bs rest : List Nat) (hstart : s.startPacketReceived = false)
    (hbs : bs.length = h6 + 2) (hL : 7 + bs.length ≤ 255)
    (hcap : 7 + bs.length ≤ s.inputBuffer.length) :
    readAvailable now s (0x55 :: 0xAA :: h0 :: h1 :: h2 :: h3 :: h4 :: h5 :: h6 :: (bs ++ rest))
        = (match parseIncomingData now
              { s with inputBuffer := [h0, h1, h2, h3, h4, h5, h6] ++ bs
                                        ++ s.inputBuffer.drop (7 + bs.length),
                       curReceivePtr := 7 + bs.length, numToRead := 0,
                       startPacketReceived := false, lastReceivedByte := 0 }
              (7 + bs.length) with
           | none => none
           | some s2 => readAvailable now s2 rest)
      ∧ dispatched now s
          (0x55 :: 0xAA :: h0 :: h1 :: h2 :: h3 :: h4 :: h5 :: h6 :: (bs ++ rest))
        = (7 + bs.length, [h0, h1, h2, h3, h4, h5, h6] ++ bs) ::
            (match parseIncomingData now
              { s with inputBuffer := [h0, h1, h2, h3, h4, h5, h6] ++ bs
                                        ++ s.inputBuffer.drop (7 + bs.length),
                       curReceivePtr := 7 + bs.length, numToRead := 0,
                       startPacketReceived := false, lastReceivedByte := 0 }
              (7 + bs.length) with
             | none => []
             | some s2 => dispatched now s2 rest) := by
  obtain ⟨t0, t1, t2, t3, t4, t5, t6, tail, hbuf⟩ :
      ∃ t0 t1 t2 t3 t4 t5 t6 tail,
        s.inputBuffer = t0 :: t1 :: t2 :: t3 :: t4 :: t5 :: t6 :: tail := by
    exact list_shape7 s.inputBuffer (by omega)
  have hne : bs ≠ [] := by
    intro h; rw [h] at hbs; simp at hbs
  have hsync := receive_sync now s
    (h0 :: h1 :: h2 :: h3 :: h4 :: h5 :: h6 :: (bs ++ rest)) hstart
  have hhead := receive_header now
    { s with startPacketReceived := true, curReceivePtr := 0, numToRead := 0,
             lastReceivedByte := 0 }
    h0 h1 h2 h3 h4 h5 h6 t0 t1 t2 t3 t4 t5 t6 tail (bs ++ rest) rfl rfl rfl hbuf (by omega)
  have hpay := receive_payload now bs
    { s with startPacketReceived := true, lastReceivedByte := 0,
             inputBuffer := h0 :: h1 :: h2 :: h3 :: h4 :: h5 :: h6 :: tail,
             curReceivePtr := 7, numToRead := h6 + 2 }
    [h0, h1, h2, h3, h4, h5, h6] tail rest hne rfl rfl rfl (by simp) (by simp [hbs])
    (by rw [hbuf] at hcap; simp at hcap; omega) (by simpa using hL)
  have hdrop : s.inputBuffer.drop (7 + bs.length) = tail.drop bs.length := by
    rw [hbuf, Nat.add_comm]; rfl
  rw [hsync.1, hsync.2, hhead.1, hhead.2, hdrop]
  simpa using hpay

/-- A registration request is always answered when the registry has fewer than 256 records:
afterwards a record holds the serial number and its address has been announced. -/
theorem handleRegistration_total (m1 m2 now : Nat) (s : SamilCommunicator)
    (S : List Nat) (hs : HeaderReady m1 m2 s) (hS : 10 ≤ S.length)
    (hlen : s.inverters.length < 256) :
    ∃ s1 r, handleRegistration now s S 10 = some s1 ∧ r ∈ s1.inverters
      ∧ r.serialNumber.take 10 = S.take 10
      ∧ s1.serialOut = s.serialOut ++ referenceFrame m1 m2 0 0 1 (S.take 10 ++ [r.address])
      ∧ s1.startPacketReceived = s.startPacketReceived ∧ HeaderReady m1 m2 s1 := by
  cases hfi : firstIndex (sameSerial S) s.inverters with
  | some i =>
    obtain ⟨pre, r, post, hsplit, hl, hr, hpre⟩ := firstIndex_some _ _ i hfi
    have hprelen : pre.length < 256 := by
      have := congrArg List.length hsplit
      simp at this; omega
    refine ⟨_, { r with addressConfirmed := false, lastSeen := now },
      handleRegistration_known now s S pre r post hsplit hprelen hpre hr, ?_, ?_, ?_, rfl, ?_⟩
    · rw [sendAllocateRegisterAddress_inverters]; simp
    · simpa [sameSerial] using hr
    · exact (sendAllocateRegisterAddress_spec m1 m2 _ hs S r.address
        hS).1
    · exact (sendAllocateRegisterAddress_spec m1 m2 _ hs S r.address
        hS).2
  | none =>
    have hnew := (firstIndex_eq_none _ _).mp hfi
    obtain ⟨a0, ha0, hfree0⟩ := exists_addressFree s.inverters hlen
    obtain ⟨a, hsearch, _, _⟩ := searchFreeAddress_total s.inverters hlen
      ((s.lastUsedAddress + 1) % 256) a0 (Nat.mod_lt _ (by norm_num)) ha0 hfree0
    refine ⟨_, { newInverter now S with address := a },
      handleRegistration_new now s S hlen hnew a hsearch, ?_, ?_, ?_, rfl, ?_⟩
    · rw [sendAllocateRegisterAddress_inverters]; simp
    · simp only [newInverter]
      rw [List.take_append_of_le_length (by simp; omega)]
      simp
    · exact (sendAllocateRegisterAddress_spec m1 m2 _ hs S a hS).1
    · exact (sendAllocateRegisterAddress_spec m1 m2 _ hs S a hS).2

/-- A received registration request `00 00 00 00 00 80 0A S` with the right checksum reaches
`handleRegistration` with a pointer to `S`. -/
theorem parseIncomingData_registration (now : Nat) (s : SamilCommunicator) (S junk : List Nat)
    (hS : S.length = 10)
    (hbuf : s.inputBuffer = [0, 0, 0, 0, 0, 0x80, 0x0A] ++ S
      ++ [(0x55 + 0xAA + 0x80 + 0x0A + S.sum) % 65536 / 256,
          (0x55 + 0xAA + 0x80 + 0x0A + S.sum) % 65536 % 256] ++ junk) :
    parseIncomingData now s 19
      = handleRegistration now s (S
          ++ [(0x55 + 0xAA + 0x80 + 0x0A + S.sum) % 65536 / 256,
              (0x55 + 0xAA + 0x80 + 0x0A + S.sum) % 65536 % 256] ++ junk) 10 := by
  have hlen : 19 = ([0, 0, 0, 0, 0, 0x80, 0x0A] ++ S).length + 2 := by simp [hS]
  have htake : s.inputBuffer.take (([0, 0, 0, 0, 0, 0x80, 0x0A] ++ S).length + 2)
      = ([0, 0, 0, 0, 0, 0x80, 0x0A] ++ S)
        ++ [(0x55 + 0xAA + 0x80 + 0x0A + S.sum) % 65536 / 256,
            (0x55 + 0xAA + 0x80 + 0x0A + S.sum) % 65536 % 256] := by
    rw [hbuf]
    apply List.take_left'
    simp
  have hsum : 0x55 + 0xAA + ([0, 0, 0, 0, 0, 0x80, 0x0A] ++ S).sum
      = 0x55 + 0xAA + 0x80 + 0x0A + S.sum := by
    simp [List.sum_append]; omega
  have hck : checksumMatches s.inputBuffer 19 = true := by
    rw [hlen, checksumMatches_frame htake, hsum]
    exact decide_eq_true ⟨rfl, rfl⟩
  have hdrop : s.inputBuffer.drop 7 = S
      ++ [(0x55 + 0xAA + 0x80 + 0x0A + S.sum) % 65536 / 256,
          (0x55 + 0xAA + 0x80 + 0x0A + S.sum) % 65536 % 256] ++ junk := by
    rw [hbuf]; simp
  have g2 : s.inputBuffer.getD 2 0 = 0 := by rw [hbuf]; rfl
  have g3 : s.inputBuffer.getD 3 0 = 0 := by rw [hbuf]; rfl
  have g4 : s.inputBuffer.getD 4 0 = 0 := by rw [hbuf]; rfl
  have g5 : s.inputBuffer.getD 5 0 = 0x80 := by rw [hbuf]; rfl
  have g6 : s.inputBuffer.getD 6 0 = 0x0A := by rw [hbuf]; rfl
  unfold parseIncomingData
  rw [hck, g2, g3, g4, g5, g6, hdrop]
  rfl

/-- Registration of a serial identifier held by the record `r`, the first one that holds it. -/
theorem handleRegistration_again {m1 m2 : Nat} (now : Nat) (s : SamilCommunicator)
    (hs : HeaderReady m1 m2 s) (S : List Nat) (hS : S.length = 10)
    (pre : List SamilInverterInformation) (r : SamilInverterInformation)
    (post : List SamilInverterInformation) (hreg : s.inverters = pre ++ r :: post)
    (hpre : pre.length < 256) (hfirst : ∀ q ∈ pre, q.serialNumber.take 10 ≠ S)
    (hr : r.serialNumber.take 10 = S) :
    ∃ s1, handleRegistration now s S 10 = some s1
      ∧ s1.inverters = pre ++ { r with addressConfirmed := false, lastSeen := now } :: post
      ∧ s1.lastUsedAddress = s.lastUsedAddress
      ∧ s1.serialOut = s.serialOut ++ referenceFrame m1 m2 0 0 1 (S ++ [r.address])
      ∧ HeaderReady m1 m2 s1 := by
  have h := handleRegistration_known now s S pre r post hreg hpre
    (fun q hq => (sameSerial_false_iff S hS q).mpr (hfirst q hq))
    ((sameSerial_iff S hS r).mpr hr)
  have hsend := sendAllocateRegisterAddress_spec m1 m2
    { s with inverters := pre ++ { r with addressConfirmed := false, lastSeen := now } :: post }
    hs S r.address (le_of_eq hS.symm)
  rw [List.take_of_length_le (le_of_eq hS)] at hsend
  exact ⟨_, h, rfl, rfl, hsend.1, hsend.2⟩

/-- Registration of a serial identifier that no record holds. -/
theorem handleRegistration_first {m1 m2 : Nat} (now : Nat) (s : SamilCommunicator)
    (hs : HeaderReady m1 m2 s) (S : List Nat) (hS : S.length = 10)
    (hlen : s.inverters.length < 256)
    (hnew : ∀ q ∈ s.inverters, q.serialNumber.take 10 ≠ S)
    (hfree : ∃ a, a < 256 ∧ AddressFree s.inverters a) :
    ∃ s1 a, handleRegistration now s S 10 = some s1
      ∧ searchFreeAddress s.inverters 256 ((s.lastUsedAddress + 1) % 256) = some a
      ∧ a < 256 ∧ AddressFree s.inverters a
      ∧ s1.inverters = s.inverters ++ [{ newInverter now S with address := a }]
      ∧ s1.lastUsedAddress = a
      ∧ s1.serialOut = s.serialOut ++ referenceFrame m1 m2 0 0 1 (S ++ [a])
      ∧ HeaderReady m1 m2 s1 := by
  obtain ⟨a0, ha0, hfree0⟩ := hfree
  obtain ⟨a, hsearch, ha, hafree⟩ := searchFreeAddress_total s.inverters hlen
    ((s.lastUsedAddress + 1) % 256) a0 (Nat.mod_lt _ (by norm_num)) ha0 hfree0
  have h := handleRegistration_new now s S hlen
    (fun q hq => (sameSerial_false_iff S hS q).mpr (hnew q hq)) a hsearch
  have hsend := sendAllocateRegisterAddress_spec m1 m2
    { s with lastUsedAddress := a,
             inverters := s.inverters ++ [{ newInverter now S with address := a }] }
    hs S a (le_of_eq hS.symm)
  rw [List.take_of_length_le (le_of_eq hS)] at hsend
  exact ⟨_, a, h, hsearch, ha, hafree, rfl, rfl, hsend.1, hsend.2⟩

theorem newInverter_serial (now : Nat) (S : List Nat) (hS : S.length = 10) (a : Nat) :
    ({ newInverter now S with address := a } : SamilInverterInformation).serialNumber.take 10
      = S := by
  simp only [newInverter]
  rw [List.take_of_length_le (le_of_eq hS)]
  exact List.take_left' hS

/-! ## Sequences of calls -/

theorem handleRegistration_length_le (now : Nat) (s s1 : SamilCommunicator) (S : List Nat)
    (h : handleRegistration now s S 10 = some s1) :
    s.inverters.length ≤ s1.inverters.length := by
  rcases handleRegistration_cases now s s1 S h with
    ⟨pre, r, post, hsplit, _, _, _, rfl⟩ | ⟨_, _, a, _, rfl⟩
  · rw [sendAllocateRegisterAddress_inverters, hsplit]; simp
  · rw [sendAllocateRegisterAddress_inverters]; simp

theorem registerAll_length_le (now : Nat) (reqs : List (List Nat)) :
    ∀ s s1 : SamilCommunicator, registerAll now s reqs = some s1 →
      s.inverters.length ≤ s1.inverters.length := by
  induction reqs with
  | nil => intro s s1 h; simp only [registerAll, Option.some.injEq] at h; rw [h]
  | cons S rest ih =>
    intro s s1 h
    simp only [registerAll] at h
    cases hstep : handleRegistration now s S 10 with
    | none => rw [hstep] at h; simp at h
    | some s2 =>
      rw [hstep] at h
      exact le_trans (handleRegistration_length_le now s s2 S hstep) (ih s2 s1 h)

theorem registerAll_append (now : Nat) (xs ys : List (List Nat)) :
    ∀ s : SamilCommunicator, registerAll now s (xs ++ ys)
      = (registerAll now s xs).bind (fun s1 => registerAll now s1 ys) := by
  induction xs with
  | nil => intro s; rfl
  | cons S rest ih =>
    intro s
    simp only [List.cons_append, registerAll]
    cases handleRegistration now s S 10 with
    | none => rfl
    | some s2 => exact ih s2

theorem sequential_free (s : SamilCommunicator) (h : Sequential s) (a : Nat)
    (ha : a = 0 ∨ s.inverters.length < a) : AddressFree s.inverters a := by
  intro r hr heq
  have hmem : r.address ∈ s.inverters.map (·.address) := List.mem_map.mpr ⟨r, hr, rfl⟩
  rw [h.1, List.mem_range'_1] at hmem
  omega

/-- A registration request in an object with sequential addresses and at most 255 records:
either no record is added, or the new record gets the next 8-bit value of the cursor. -/
theorem sequential_step (now : Nat) (s s1 : SamilCommunicator) (S : List Nat)
    (hseq : Sequential s) (hlen : s.inverters.length ≤ 255)
    (h : handleRegistration now s S 10 = some s1) :
    (s1.inverters.map (·.address) = s.inverters.map (·.address)
        ∧ s1.lastUsedAddress = s.lastUsedAddress)
      ∨ (s1.inverters.map (·.address)
            = s.inverters.map (·.address) ++ [(s.inverters.length + 1) % 256]
          ∧ s1.lastUsedAddress = (s.inverters.length + 1) % 256
          ∧ ∀ q ∈ s.inverters, sameSerial S q = false) := by
  rcases handleRegistration_cases now s s1 S h with
    ⟨pre, r, post, hsplit, _, _, _, rfl⟩ | ⟨hl, hnew, a, hsearch, rfl⟩
  · left
    rw [sendAllocateRegisterAddress_inverters, sendAllocateRegisterAddress_cursor, hsplit]
    simp
  · right
    have hfree : AddressFree s.inverters ((s.inverters.length + 1) % 256) := by
      apply sequential_free s hseq
      omega
    rw [hseq.2, searchFreeAddress_here s.inverters 255 _ hl hfree] at hsearch
    cases hsearch
    rw [sendAllocateRegisterAddress_inverters, sendAllocateRegisterAddress_cursor]
    exact ⟨by simp, rfl, hnew⟩

theorem sequential_preserved (now : Nat) (s s1 : SamilCommunicator) (S : List Nat)
    (hseq : Sequential s) (h : handleRegistration now s S 10 = some s1)
    (hlen1 : s1.inverters.length ≤ 255) : Sequential s1 := by
  have hle := handleRegistration_length_le now s s1 S h
  rcases sequential_step now s s1 S hseq (by omega) h with ⟨hm, hc⟩ | ⟨hm, hc, _⟩
  · have hl : s1.inverters.length = s.inverters.length := by
      have := congrArg List.length hm
      simpa using this
    exact ⟨by rw [hm, hl]; exact hseq.1, by rw [hc, hl]; exact hseq.2⟩
  · have hl : s1.inverters.length = s.inverters.length + 1 := by
      have := congrArg List.length hm
      simpa using this
    have hmod : (s.inverters.length + 1) % 256 = s.inverters.length + 1 :=
      Nat.mod_eq_of_lt (by omega)
    refine ⟨?_, by rw [hc, hl, hmod]⟩
    rw [hm, hl, hseq.1, hmod, List.range'_concat]
    simp [Nat.add_comm]

theorem sequential_registerAll (now : Nat) (reqs : List (List Nat)) :
    ∀ s s1 : SamilCommunicator, Sequential s → registerAll now s reqs = some s1 →
      s1.inverters.length ≤ 255 → Sequential s1 := by
  induction reqs with
  | nil =>
    intro s s1 hseq h _
    simp only [registerAll, Option.some.injEq] at h
    rw [← h]; exact hseq
  | cons S rest ih =>
    intro s s1 hseq h hlen
    simp only [registerAll] at h
    cases hstep : handleRegistration now s S 10 with
    | none => rw [hstep] at h; simp at h
    | some s2 =>
      rw [hstep] at h
      have hle := registerAll_length_le now rest s2 s1 h
      exact ih s2 s1 (sequential_preserved now s s2 S hseq hstep (by omega)) h hlen

/-- A new 10-octet serial identifier registered in an object with sequential addresses and at
most 255 records: one record is appended, with the next 8-bit value of the cursor. -/
theorem sequential_register_new (now : Nat) (s : SamilCommunicator) (S : List Nat)
    (hseq : Sequential s) (hlen : s.inverters.length ≤ 255) (hS : S.length = 10)
    (hnew : S ∉ s.inverters.map (fun r => r.serialNumber.take 10)) :
    ∃ s1, handleRegistration now s S 10 = some s1
      ∧ s1.inverters.map (fun r => r.serialNumber.take 10)
          = s.inverters.map (fun r => r.serialNumber.take 10) ++ [S]
      ∧ s1.inverters.map (·.address)
          = s.inverters.map (·.address) ++ [(s.inverters.length + 1) % 256]
      ∧ s1.lastUsedAddress = (s.inverters.length + 1) % 256 := by
  have hnew1 : ∀ q ∈ s.inverters, sameSerial S q = false := by
    intro q hq
    rw [sameSerial_false_iff S hS]
    intro heq
    exact hnew (List.mem_map.mpr ⟨q, hq, heq⟩)
  have hfree : AddressFree s.inverters ((s.inverters.length + 1) % 256) := by
    apply sequential_free s hseq
    omega
  have hsearch : searchFreeAddress s.inverters 256 ((s.lastUsedAddress + 1) % 256)
      = some ((s.inverters.length + 1) % 256) := by
    rw [hseq.2]
    exact searchFreeAddress_here s.inverters 255 _ (by omega) hfree
  refine ⟨_, handleRegistration_new now s S (by omega) hnew1 _ hsearch, ?_, ?_, rfl⟩
  · rw [sendAllocateRegisterAddress_inverters]
    simp only [List.map_append, List.map_cons, List.map_nil]
    rw [newInverter_serial now S hS]
  · rw [sendAllocateRegisterAddress_inverters]
    simp

/-- Pairwise different 10-octet serial identifiers registered one after the other, as long as
there are at most 255 records: each gets a record of its own, and the addresses are
1, 2, 3, ... in registry order. -/
theorem sequential_register_distinct (now : Nat) (todo : List (List Nat)) :
    ∀ s : SamilCommunicator, Sequential s →
      (s.inverters.map (fun r => r.serialNumber.take 10) ++ todo).Nodup →
      (∀ S ∈ todo, S.length = 10) → s.inverters.length + todo.length ≤ 255 →
      ∃ s1, registerAll now s todo = some s1 ∧ Sequential s1
        ∧ s1.inverters.map (fun r => r.serialNumber.take 10)
            = s.inverters.map (fun r => r.serialNumber.take 10) ++ todo := by
  induction todo with
  | nil => intro s hseq _ _ _; exact ⟨s, rfl, hseq, by simp⟩
  | cons S rest ih =>
    intro s hseq hnd h10 hlen
    simp only [List.length_cons] at hlen
    have hnew : S ∉ s.inverters.map (fun r => r.serialNumber.take 10) := by
      intro hmem
      have := List.nodup_append.mp hnd
      exact this.2.2 hmem (List.mem_cons_self _ _)
    obtain ⟨s1, hstep, hser, haddr, hcur⟩ := sequential_register_new now s S hseq (by omega)
      (h10 S (List.mem_cons_self _ _)) hnew
    have hl1 : s1.inverters.length = s.inverters.length + 1 := by
      have := congrArg List.length hser
      simpa using this
    have hseq1 : Sequential s1 :=
      sequential_preserved now s s1 S hseq hstep (by omega)
    obtain ⟨s2, hrun, hseq2, hser2⟩ := ih s1 hseq1
      (by rw [hser, List.append_assoc]; exact hnd)
      (fun T hT => h10 T (List.mem_cons_of_mem _ hT)) (by omega)
    refine ⟨s2, ?_, hseq2, ?_⟩
    · simp only [registerAll, hstep]
      exact hrun
    · rw [hser2, hser, List.append_assoc]
      rfl

theorem serialOf_nodup (n : Nat) : ((List.range n).map serialOf).Nodup := by
  apply List.Nodup.map _ (List.nodup_range n)
  intro i j h
  simpa [serialOf] using h

theorem sequential_of_empty (s : SamilCommunicator) (h0 : s.inverters = [])
    (hc : s.lastUsedAddress = 0) : Sequential s := by
  simp [Sequential, h0, hc]

/-! ## The keys of the registry -/

theorem handleRegistration_returns (now : Nat) (s : SamilCommunicator) (S : List Nat)
    (hlen : s.inverters.length < 256) : ∃ s1, handleRegistration now s S 10 = some s1 := by
  cases hfi : firstIndex (sameSerial S) s.inverters with
  | some i =>
    obtain ⟨pre, r, post, hsplit, hl, hr, hpre⟩ := firstIndex_some _ _ i hfi
    have hprelen : pre.length < 256 := by
      have := congrArg List.length hsplit
      simp at this; omega
    exact ⟨_, handleRegistration_known now s S pre r post hsplit hprelen hpre hr⟩
  | none =>
    have hnew := (firstIndex_eq_none _ _).mp hfi
    obtain ⟨a0, ha0, hfree0⟩ := exists_addressFree s.inverters hlen
    obtain ⟨a, hsearch, _, _⟩ := searchFreeAddress_total s.inverters hlen
      ((s.lastUsedAddress + 1) % 256) a0 (Nat.mod_lt _ (by norm_num)) ha0 hfree0
    exact ⟨_, handleRegistration_new now s S hlen hnew a hsearch⟩

theorem getInverterInfoByAddress_returns (inverters : List SamilInverterInformation) (a : Nat)
    (hlen : inverters.length < 256) :
    ∃ found, getInverterInfoByAddress inverters a = some found :=
  ⟨_, charIndexLoop_of_lt _ inverters hlen⟩

theorem askInverterForInformation_inverters (s : SamilCommunicator) (a : Nat) :
    (askInverterForInformation s a).inverters = s.inverters := rfl

theorem decodeInformation_address (now : Nat) (data : List Nat)
    (r : SamilInverterInformation) : (decodeInformation now data r).address = r.address := by
  cases h : r.isDTSeries <;> simp [decodeInformation, h]

theorem decodeInformation_serialNumber (now : Nat) (data : List Nat)
    (r : SamilInverterInformation) :
    (decodeInformation now data r).serialNumber = r.serialNumber := by
  cases h : r.isDTSeries <;> simp [decodeInformation, h]

/-- Every call that returns keeps the keys of the records that exist, in their order; a
registration may append one record, whose address and serial identifier no record has. -/
theorem run_keys (c : RegistryCall) (s s1 : SamilCommunicator) (hv : c.valid = true)
    (h : c.run s = some s1) :
    (s1.inverters.map (·.address) = s.inverters.map (·.address)
        ∧ s1.inverters.map (fun r => r.serialNumber.take 10)
            = s.inverters.map (fun r => r.serialNumber.take 10))
      ∨ ∃ a S, a ∉ s.inverters.map (·.address)
          ∧ S ∉ s.inverters.map (fun r => r.serialNumber.take 10)
          ∧ s1.inverters.map (·.address) = s.inverters.map (·.address) ++ [a]
          ∧ s1.inverters.map (fun r => r.serialNumber.take 10)
              = s.inverters.map (fun r => r.serialNumber.take 10) ++ [S] := by
  cases c with
  | registration now S =>
    have hS : S.length = 10 := by simpa [RegistryCall.valid] using hv
    rcases handleRegistration_cases now s s1 S h with
      ⟨pre, r, post, hsplit, _, _, _, rfl⟩ | ⟨hl, hnew, a, hsearch, rfl⟩
    · left
      rw [sendAllocateRegisterAddress_inverters, hsplit]
      simp
    · right
      have hfree := (searchFreeAddress_sound s.inverters hl 256 _ a
        (Nat.mod_lt _ (by norm_num)) hsearch).2
      refine ⟨a, S, ?_, ?_, ?_, ?_⟩
      · intro hmem
        obtain ⟨q, hq, hqa⟩ := List.mem_map.mp hmem
        exact hfree q hq hqa
      · intro hmem
        obtain ⟨q, hq, hqs⟩ := List.mem_map.mp hmem
        exact (sameSerial_false_iff S hS q).mp (hnew q hq) hqs
      · rw [sendAllocateRegisterAddress_inverters]; simp
      · rw [sendAllocateRegisterAddress_inverters]
        simp only [List.map_append, List.map_cons, List.map_nil]
        rw [newInverter_serial now S hS]
  | confirmation now a =>
    left
    simp only [RegistryCall.run, handleRegistrationConfirmation] at h
    cases hfound : getInverterInfoByAddress s.inverters a with
    | none => rw [hfound] at h; simp at h
    | some found =>
      rw [hfound] at h
      cases found with
      | none =>
        simp only [Option.some.injEq] at h
        subst h
        exact ⟨rfl, rfl⟩
      | some i =>
        simp only [Option.some.injEq] at h
        subst h
        constructor
        · show List.map _ (updateAt _ i s.inverters) = _
          apply updateAt_map
          intro r
          rfl
        · show List.map _ (updateAt _ i s.inverters) = _
          apply updateAt_map
          intro r
          rfl
  | information now a dataLength data =>
    left
    simp only [RegistryCall.run, handleIncomingInformation] at h
    cases hfound : getInverterInfoByAddress s.inverters a with
    | none => rw [hfound] at h; simp at h
    | some found =>
      rw [hfound] at h
      cases found with
      | none =>
        simp only [Option.some.injEq] at h
        subst h
        exact ⟨rfl, rfl⟩
      | some i =>
        by_cases hd : dataLength < 44
        · simp only [hd, if_true, Option.some.injEq] at h
          subst h
          exact ⟨rfl, rfl⟩
        · simp only [hd, if_false, Option.some.injEq] at h
          subst h
          constructor
          · show List.map _ (updateAt _ i s.inverters) = _
            exact updateAt_map _ _ (decodeInformation_address now data) i s.inverters
          · show List.map _ (updateAt _ i s.inverters) = _
            exact updateAt_map _ _
              (fun r => congrArg (List.take 10) (decodeInformation_serialNumber now data r))
              i s.inverters
  | offline timeout now =>
    left
    simp only [RegistryCall.run, checkOfflineInverters] at h
    by_cases hl : s.inverters.length < 256
    · simp only [hl, if_true, Option.some.injEq] at h
      subst h
      constructor
      · simp only [List.map_map]
        apply List.map_congr_left
        intro r _
        by_cases ho : r.isOnline = true <;> simp [ho]
      · simp only [List.map_map]
        apply List.map_congr_left
        intro r _
        by_cases ho : r.isOnline = true <;> simp [ho]
    · simp [hl] at h

theorem run_returns (c : RegistryCall) (s : SamilCommunicator)
    (hlen : s.inverters.length < 256) : ∃ s1, c.run s = some s1 := by
  cases c with
  | registration now S => exact handleRegistration_returns now s S hlen
  | confirmation now a =>
    obtain ⟨found, hfound⟩ := getInverterInfoByAddress_returns s.inverters a hlen
    simp only [RegistryCall.run, handleRegistrationConfirmation, hfound]
    cases found <;> exact ⟨_, rfl⟩
  | information now a dataLength data =>
    obtain ⟨found, hfound⟩ := getInverterInfoByAddress_returns s.inverters a hlen
    simp only [RegistryCall.run, handleIncomingInformation, hfound]
    cases found with
    | none => exact ⟨_, rfl⟩
    | some i => by_cases hd : dataLength < 44 <;> simp [hd]
  | offline timeout now =>
    simp [RegistryCall.run, checkOfflineInverters, hlen]

theorem run_keysUnique (c : RegistryCall) (s s1 : SamilCommunicator) (hv : c.valid = true)
    (h : c.run s = some s1) (hu : KeysUnique s.inverters) : KeysUnique s1.inverters := by
  rcases run_keys c s s1 hv h with ⟨ha, hs⟩ | ⟨a, S, hna, hnS, ha, hs⟩
  · exact ⟨by rw [ha]; exact hu.1, by rw [hs]; exact hu.2⟩
  · refine ⟨?_, ?_⟩
    · rw [ha]
      exact List.Nodup.append hu.1 (List.nodup_singleton a)
        (by simpa [List.Disjoint] using hna)
    · rw [hs]
      exact List.Nodup.append hu.2 (List.nodup_singleton S)
        (by simpa [List.Disjoint] using hnS)

/-- From the initial state, registration requests for 256 different serial identifiers are
all completed; the records get the addresses 1..255 and then 0. -/
theorem registerAll_256_identifiers :
    ∃ s, registerAll 0 example0 ((List.range 256).map serialOf) = some s
      ∧ s.inverters.map (fun r => r.serialNumber.take 10) = (List.range 256).map serialOf
      ∧ s.inverters.map (·.address) = List.range' 1 255 ++ [0] := by
  obtain ⟨s, hrun, hseq, hser⟩ := sequential_register_distinct 0
    ((List.range 255).map serialOf) example0 (by decide)
    (by simpa [example0, start, constructed] using serialOf_nodup 255)
    (by intro S hS; obtain ⟨i, _, rfl⟩ := List.mem_map.mp hS; rfl)
    (by simp [example0, start, constructed])
  have hser1 : s.inverters.map (fun r => r.serialNumber.take 10)
      = (List.range 255).map serialOf := by
    simpa [example0, start, constructed] using hser
  have hlen : s.inverters.length = 255 := by
    have := congrArg List.length hser1
    simpa using this
  have hnew : serialOf 255 ∉ s.inverters.map (fun r => r.serialNumber.take 10) := by
    rw [hser1]
    intro hmem
    obtain ⟨j, hj, hjeq⟩ := List.mem_map.mp hmem
    have : j = 255 := by simpa [serialOf] using hjeq
    rw [List.mem_range] at hj
    omega
  obtain ⟨s1, hstep, hser2, haddr2, _⟩ := sequential_register_new 0 s (serialOf 255) hseq
    (by omega) rfl hnew
  refine ⟨s1, ?_, ?_, ?_⟩
  · rw [show List.range 256 = List.range 255 ++ [255] from List.range_succ 255,
      List.map_append, registerAll_append, hrun]
    simp only [Option.some_bind, List.map_cons, List.map_nil, registerAll, hstep]
  · rw [hser2, hser1, show List.range 256 = List.range 255 ++ [255] from List.range_succ 255,
      List.map_append]
    simp only [List.map_cons, List.map_nil]
  · rw [haddr2, hseq.1, hlen]

/-! ## Confirmation, telemetry and polling -/

theorem askInverterForInformation_spec (m1 m2 : Nat) (s : SamilCommunicator)
    (hs : HeaderReady m1 m2 s) (A : Nat) (hA : A < 65536) :
    (askInverterForInformation s A).serialOut
        = s.serialOut ++ referenceFrame m1 m2 A 0x01 0x02 []
      ∧ HeaderReady m1 m2 (askInverterForInformation s A) := by
  have h := sendData_spec hs A 0x01 0x02 [] hA
  exact ⟨h.1, h.2.1⟩

/-- The lookup of an address that the record `r` is the first to have. -/
theorem getInverterInfoByAddress_found (pre : List SamilInverterInformation)
    (r : SamilInverterInformation) (post : List SamilInverterInformation) (A : Nat)
    (hpre : pre.length < 256) (hfirst : ∀ q ∈ pre, q.address ≠ A) (hr : r.address = A) :
    getInverterInfoByAddress (pre ++ r :: post) A = some (some pre.length) := by
  unfold getInverterInfoByAddress
  apply charIndexLoop_found _ pre r post hpre
  · intro y hy
    simpa using hfirst y hy
  · simpa using hr

theorem getD_drop_zero (data : List Nat) (k i : Nat) :
    (data.drop k).getD i 0 = data.getD (k + i) 0 := by
  simp [List.getD_eq_getElem?_getD]

theorem shift_or_eq (a b : Nat) (hb : b < 256) : (a <<< 8) ||| b = 256 * a + b := by
  rw [Nat.shiftLeft_eq, Nat.mul_comm]
  exact (Nat.mul_add_lt_is_or (i := 8) hb a).symm

theorem getD_lt_256 (data : List Nat) (hoct : ∀ x ∈ data, x < 256) (i : Nat) :
    data.getD i 0 < 256 := by
  rw [List.getD_eq_getElem?_getD]
  cases h : data[i]? with
  | none => simp
  | some x => simpa using hoct x (List.getElem?_mem h)

theorem bytesToShort_drop (data : List Nat) (hoct : ∀ x ∈ data, x < 256) (k : Nat) :
    bytesToShort (data.drop k) = be16 data k := by
  unfold bytesToShort be16
  rw [getD_drop_zero, getD_drop_zero, shift_or_eq _ _ (getD_lt_256 data hoct _)]
  rfl

theorem bytesToFloat_drop (data : List Nat) (hoct : ∀ x ∈ data, x < 256) (k factor : Nat) :
    bytesToFloat (data.drop k) factor = (be16 data k : ℚ) / (factor : ℚ) := by
  unfold bytesToFloat be16
  rw [getD_drop_zero, getD_drop_zero, shift_or_eq _ _ (getD_lt_256 data hoct _)]
  rfl

theorem bytesToFloat_zero (data : List Nat) (hoct : ∀ x ∈ data, x < 256) (factor : Nat) :
    bytesToFloat data factor = (be16 data 0 : ℚ) / (factor : ℚ) := by
  have := bytesToFloat_drop data hoct 0 factor
  simpa using this

/-- The decoder on a record of the default variant. -/
theorem decodeInformation_default (now : Nat) (data : List Nat) (hoct : ∀ x ∈ data, x < 256)
    (r : SamilInverterInformation) (hdt : r.isDTSeries = false) :
    decodeInformation now data r
      = { r with
          lastSeen := now,
          vpv1 := (be16 data 0 : ℚ) / 10, vpv2 := (be16 data 2 : ℚ) / 10,
          ipv1 := (be16 data 4 : ℚ) / 10, ipv2 := (be16 data 6 : ℚ) / 10,
          vac1 := (be16 data 8 : ℚ) / 10, iac1 := (be16 data 10 : ℚ) / 10,
          fac1 := (be16 data 12 : ℚ) / 100,
          pac := be16 data 14, workMode := be16 data 16,
          temp := (be16 data 18 : ℚ) / 10, eDay := (be16 data 44 : ℚ) / 10,
          isOnline := true } := by
  simp only [decodeInformation, hdt, Bool.false_eq_true, if_false, bytesToFloat_drop data hoct,
    bytesToShort_drop data hoct, bytesToFloat_zero data hoct, Nat.zero_add, Nat.reduceAdd,
    Nat.cast_ofNat]

/-- Where the decoder reads the daily energy: at the octets 44 and 45 of the payload for the
default variant and at the octets 64 and 65 for the series variant. -/
theorem decodeInformation_eDay (now : Nat) (data : List Nat) (r : SamilInverterInformation) :
    (decodeInformation now data r).eDay
      = bytesToFloat (data.drop (if r.isDTSeries then 64 else 44)) 10 := by
  cases h : r.isDTSeries <;> simp [decodeInformation, h]

/-- The daily energy after a payload of declared length 44 has been decoded for the only
record of the registry. -/
theorem handleIncomingInformation_eDay (now : Nat) (s : SamilCommunicator)
    (r : SamilInverterInformation) (data : List Nat) (hs : s.inverters = [r])
    (hr : r.address = 1) :
    (handleIncomingInformation now s 1 44 data).map (fun s => s.inverters.map (·.eDay))
      = some [bytesToFloat (data.drop (if r.isDTSeries then 64 else 44)) 10] := by
  have hfound := getInverterInfoByAddress_found [] r [] 1 (by decide) (by simp) hr
  have hrun : handleIncomingInformation now s 1 44 data
      = some { s with inverters := [decodeInformation now data r] } := by
    unfold handleIncomingInformation
    rw [hs, show [r] = [] ++ r :: [] from rfl, hfound]
    rfl
  rw [hrun]
  simp only [Option.map_some', List.map_cons, List.map_nil, decodeInformation_eDay]

/-- The clock difference of the model is the difference of the two 32-bit clock values
modulo 2^32. -/
theorem elapsed_eq_emod (now earlier : Nat) (hn : now < 4294967296)
    (he : earlier < 4294967296) :
    (elapsed now earlier : ℤ) = ((now : ℤ) - (earlier : ℤ)) % 4294967296 := by
  unfold elapsed
  omega

/-- The rounds of `askAllInvertersForInformation` for the records `todo` that follow the
records `done` in the registry. -/
theorem askAll_rounds (m1 m2 : Nat) (todo : List SamilInverterInformation) :
    ∀ (done : List SamilInverterInformation) (s : SamilCommunicator),
      s.inverters = done ++ todo → HeaderReady m1 m2 s → (∀ r ∈ todo, r.address < 256) →
      ((List.range' done.length todo.length).foldl askAllStep s).inverters = s.inverters
        ∧ ((List.range' done.length todo.length).foldl askAllStep s).lastUsedAddress
            = s.lastUsedAddress
        ∧ ((List.range' done.length todo.length).foldl askAllStep s).serialOut
            = s.serialOut ++
              ((todo.filter (fun r => r.addressConfirmed && r.isOnline)).map
                (fun r => referenceFrame m1 m2 r.address 0x01 0x02 [])).flatten := by
  induction todo with
  | nil => intro done s _ _ _; simp
  | cons r rest ih =>
    intro done s hinv hs haddr
    have hget : s.inverters.get? done.length = some r := by
      rw [hinv]; exact get?_append_length done r rest
    have hra : r.address < 256 := haddr r (List.mem_cons_self _ _)
    simp only [List.length_cons, List.range'_succ, List.foldl_cons]
    by_cases hp : (r.addressConfirmed && r.isOnline) = true
    · have hstep : askAllStep s done.length = askInverterForInformation s r.address := by
        simp only [askAllStep, hget, hp, if_true]
      have hsend := askInverterForInformation_spec m1 m2 s hs r.address (by omega)
      have h := ih (done ++ [r]) (askInverterForInformation s r.address)
        (by rw [askInverterForInformation_inverters, hinv]; simp) hsend.2
        (fun q hq => haddr q (List.mem_cons_of_mem _ hq))
      simp only [List.length_append, List.length_singleton] at h
      rw [hstep]
      refine ⟨h.1, h.2.1, ?_⟩
      rw [h.2.2, hsend.1]
      simp [List.filter_cons, hp]
    · have hstep : askAllStep s done.length = s := by
        simp only [askAllStep, hget, hp, if_false]
        rfl
      have h := ih (done ++ [r]) s (by rw [hinv]; simp) hs
        (fun q hq => haddr q (List.mem_cons_of_mem _ hq))
      simp only [List.length_append, List.length_singleton] at h
      rw [hstep]
      refine ⟨h.1, h.2.1, ?_⟩
      rw [h.2.2]
      simp [List.filter_cons, hp]

/-! ## The assembler, counters only -/

/-- What `parseIncomingData` leaves alone: the receive buffer and the state of the
assembler. -/
theorem parseIncomingData_assembler (now : Nat) (s s1 : SamilCommunicator) (n : Nat)
    (h : parseIncomingData now s n = some s1) :
    s1.inputBuffer = s.inputBuffer ∧ s1.startPacketReceived = s.startPacketReceived
      ∧ s1.lastReceivedByte = s.lastReceivedByte ∧ s1.curReceivePtr = s.curReceivePtr
      ∧ s1.numToRead = s.numToRead ∧ s1.lastReceived = s.lastReceived := by
  unfold parseIncomingData at h
  split at h
  · cases h; exact ⟨rfl, rfl, rfl, rfl, rfl, rfl⟩
  · split at h
    · rcases handleRegistration_cases now s s1 _ h with
        ⟨pre, r, post, _, _, _, _, rfl⟩ | ⟨_, _, a, _, rfl⟩
      · exact ⟨rfl, rfl, rfl, rfl, rfl, rfl⟩
      · exact ⟨rfl, rfl, rfl, rfl, rfl, rfl⟩
    · split at h
      · unfold handleRegistrationConfirmation at h
        split at h
        · cases h
        · cases h; exact ⟨rfl, rfl, rfl, rfl, rfl, rfl⟩
        · cases h; exact ⟨rfl, rfl, rfl, rfl, rfl, rfl⟩
      · split at h
        · unfold handleIncomingInformation at h
          split at h
          · cases h
          · cases h; exact ⟨rfl, rfl, rfl, rfl, rfl, rfl⟩
          · split at h
            · cases h; exact ⟨rfl, rfl, rfl, rfl, rfl, rfl⟩
            · cases h; exact ⟨rfl, rfl, rfl, rfl, rfl, rfl⟩
        · cases h; exact ⟨rfl, rfl, rfl, rfl, rfl, rfl⟩

/-- One octet behind the header, whatever the receive buffer holds: it is stored at
`curReceivePtr`, and the frame is handed to `parseIncomingData` when it was the last octet
awaited. -/
theorem receiveByte_payload (s : SamilCommunicator) (b : Nat)
    (hstart : s.startPacketReceived = true) (h7 : 7 ≤ s.curReceivePtr)
    (hptr : s.curReceivePtr + 1 ≤ 255) (hn : 0 < s.numToRead) (hn2 : s.numToRead ≤ 255) :
    receiveByte s b =
        (if s.numToRead = 1 then
          ({ s with inputBuffer := s.inputBuffer.set s.curReceivePtr b,
                    curReceivePtr := s.curReceivePtr + 1, numToRead := 0,
                    startPacketReceived := false }, some (s.curReceivePtr + 1))
        else
          ({ s with inputBuffer := s.inputBuffer.set s.curReceivePtr b,
                    curReceivePtr := s.curReceivePtr + 1,
                    numToRead := s.numToRead - 1 }, none))
      ∧ storeIndex s b = some s.curReceivePtr := by
  have e1 : (s.curReceivePtr + 1) % 256 = s.curReceivePtr + 1 := Nat.mod_eq_of_lt (by omega)
  have e2 : (s.numToRead + 255) % 256 = s.numToRead - 1 := by omega
  have e3 : (s.curReceivePtr + 1 == 7) = false := by simp; omega
  have e4 : decide (s.curReceivePtr + 1 > 5) = true := by simp; omega
  have e5 : decide (s.curReceivePtr + 1 ≥ 7) = true := by simp; omega
  have e6 : decide (s.numToRead > 0) = true := by simp; omega
  constructor
  · unfold receiveByte
    simp only [hstart, e1, e2, e3, e4, e5, e6, Bool.not_true, Bool.false_and, Bool.true_or,
      Bool.true_and, if_true, if_false, Bool.false_eq_true]
    by_cases h1 : s.numToRead = 1
    · simp [h1]
    · have : ¬ (s.numToRead - 1 = 0) := by omega
      simp [h1, this]
  · unfold storeIndex
    simp only [hstart, e6, Bool.not_true, Bool.false_and, Bool.true_or, if_true,
      Bool.false_eq_true, if_false]

/-- Octets behind the header, fewer than the countdown awaits: they are stored one after the
other from `curReceivePtr` on and nothing is dispatched. -/
theorem payload_quiet (now : Nat) (bs : List Nat) :
    ∀ s : SamilCommunicator, s.startPacketReceived = true → 7 ≤ s.curReceivePtr →
      bs.length < s.numToRead → s.numToRead ≤ 255 → s.curReceivePtr + bs.length ≤ 255 →
      dispatched now s bs = [] ∧ stored now s bs = List.range' s.curReceivePtr bs.length
        ∧ ∃ s1, readAvailable now s bs = some s1 ∧ s1.startPacketReceived = true
          ∧ s1.curReceivePtr = s.curReceivePtr + bs.length
          ∧ s1.numToRead = s.numToRead - bs.length := by
  induction bs with
  | nil => intro s hstart _ _ _ _; exact ⟨rfl, rfl, s, rfl, hstart, rfl, rfl⟩
  | cons b bs ih =>
    intro s hstart h7 hlt hn2 hptr
    simp only [List.length_cons] at hlt hptr
    obtain ⟨hstep, hstore⟩ := receiveByte_payload s b hstart h7 (by omega) (by omega) hn2
    rw [if_neg (by omega)] at hstep
    obtain ⟨hd, hs, s1, hr, hst1, hp1, hn1⟩ := ih
      { s with inputBuffer := s.inputBuffer.set s.curReceivePtr b,
               curReceivePtr := s.curReceivePtr + 1, numToRead := s.numToRead - 1 }
      hstart (by simp only; omega) (by simp only; omega) (by simp only; omega)
      (by simp only; omega)
    refine ⟨?_, ?_, s1, ?_, hst1, ?_, ?_⟩
    · simp only [dispatched, hstep]
      exact hd
    · simp only [stored, hstore, processByte, hstep, Option.toList, List.length_cons,
        List.range'_succ]
      rw [hs]
      rfl
    · simp only [readAvailable, processByte, hstep]
      exact hr
    · rw [hp1]; simp only [List.length_cons]; omega
    · rw [hn1]; simp only [List.length_cons]; omega

theorem dispatched_nil_of_append (now : Nat) (xs ys : List Nat) :
    ∀ s : SamilCommunicator, dispatched now s (xs ++ ys) = [] → dispatched now s xs = [] := by
  induction xs with
  | nil => intro s _; rfl
  | cons x xs ih =>
    intro s h
    simp only [List.cons_append, dispatched] at h ⊢
    cases hstep : receiveByte s x with
    | mk s1 res =>
      rw [hstep] at h
      cases res with
      | none => exact ih s1 h
      | some n => simp at h

/-- The stores made while the synchronization octets and the header are read. -/
theorem stored_sync_header (now : Nat) (s : SamilCommunicator) (h0 h1 h2 h3 h4 h5 h6 : Nat)
    (rest : List Nat) (hstart : s.startPacketReceived = false)
    (hL : h6 + 2 < 256) (hcap : 7 ≤ s.inputBuffer.length) :
    ∃ sH, sH.startPacketReceived = true ∧ sH.curReceivePtr = 7 ∧ sH.numToRead = h6 + 2
      ∧ stored now s (0x55 :: 0xAA :: h0 :: h1 :: h2 :: h3 :: h4 :: h5 :: h6 :: rest)
          = [0, 1, 2, 3, 4, 5, 6] ++ stored now sH rest
      ∧ dispatched now s (0x55 :: 0xAA :: h0 :: h1 :: h2 :: h3 :: h4 :: h5 :: h6 :: rest)
          = dispatched now sH rest := by
  obtain ⟨t0, t1, t2, t3, t4, t5, t6, tail, hbuf⟩ := list_shape7 s.inputBuffer hcap
  have e : (h6 + 2) % 256 = h6 + 2 := Nat.mod_eq_of_lt hL
  refine ⟨{ s with startPacketReceived := true, lastReceivedByte := 0,
                   inputBuffer := h0 :: h1 :: h2 :: h3 :: h4 :: h5 :: h6 :: tail,
                   curReceivePtr := 7, numToRead := h6 + 2 }, rfl, rfl, rfl, ?_, ?_⟩
  · simp [stored, storeIndex, processByte, receiveByte, hstart, hbuf, e]
  · simp [dispatched, receiveByte, hstart, hbuf, e]

/-- The address search in a registry in which every 8-bit address is held: it never ends. -/
theorem searchFreeAddress_exhausted (inverters : List SamilInverterInformation)
    (hfull : ∀ a, a < 256 → ¬ AddressFree inverters a) (fuel : Nat) :
    ∀ c, c < 256 → searchFreeAddress inverters fuel c = none := by
  induction fuel with
  | zero => intro c _; rfl
  | succ fuel ih =>
    intro c hc
    simp only [searchFreeAddress]
    cases hfound : getInverterInfoByAddress inverters c with
    | none => rfl
    | some found =>
      cases found with
      | some i => exact ih _ (Nat.mod_lt _ (by norm_num))
      | none =>
        exfalso
        unfold getInverterInfoByAddress at hfound
        obtain ⟨_, hall⟩ := charIndexLoop_some_none _ _ hfound
        apply hfull c hc
        intro r hr
        simpa using hall r hr

/-- A registration request for a serial identifier that no record holds, in a registry in
which every 8-bit address is held: the call never returns. -/
theorem handleRegistration_exhausted (now : Nat) (s : SamilCommunicator) (S : List Nat)
    (hfull : ∀ a, a < 256 → ¬ AddressFree s.inverters a)
    (hnew : ∀ q ∈ s.inverters, sameSerial S q = false) :
    handleRegistration now s S 10 = none := by
  cases h : handleRegistration now s S 10 with
  | none => rfl
  | some s1 =>
    exfalso
    rcases handleRegistration_cases now s s1 S h with
      ⟨pre, r, post, hsplit, _, _, hr, _⟩ | ⟨hlen, _, _, _, _⟩
    · have := hnew r (by rw [hsplit]; simp)
      rw [hr] at this
      exact Bool.noConfusion this
    · obtain ⟨a, ha, hfree⟩ := exists_addressFree s.inverters hlen
      exact hfull a ha hfree

/-! ## Registries that a sequence of calls reaches -/

/-- A call that returns keeps the addresses of the records, or appends one record whose
address is an octet. -/
theorem run_addresses (c : RegistryCall) (s s1 : SamilCommunicator) (h : c.run s = some s1) :
    s1.inverters.map (·.address) = s.inverters.map (·.address)
      ∨ ∃ a, a < 256 ∧ s1.inverters.map (·.address) = s.inverters.map (·.address) ++ [a] := by
  cases c with
  | registration now S =>
    rcases handleRegistration_cases now s s1 S h with
      ⟨pre, r, post, hsplit, _, _, _, rfl⟩ | ⟨hl, _, a, hsearch, rfl⟩
    · left
      rw [sendAllocateRegisterAddress_inverters, hsplit]
      simp
    · right
      refine ⟨a, (searchFreeAddress_sound s.inverters hl 256 _ a
        (Nat.mod_lt _ (by norm_num)) hsearch).1, ?_⟩
      rw [sendAllocateRegisterAddress_inverters]
      simp
  | confirmation now a =>
    left
    simp only [RegistryCall.run, handleRegistrationConfirmation] at h
    cases hfound : getInverterInfoByAddress s.inverters a with
    | none => rw [hfound] at h; simp at h
    | some found =>
      rw [hfound] at h
      cases found with
      | none =>
        simp only [Option.some.injEq] at h
        subst h
        rfl
      | some i =>
        simp only [Option.some.injEq] at h
        subst h
        show List.map _ (updateAt _ i s.inverters) = _
        apply updateAt_map
        intro r
        rfl
  | information now a dataLength data =>
    left
    simp only [RegistryCall.run, handleIncomingInformation] at h
    cases hfound : getInverterInfoByAddress s.inverters a with
    | none => rw [hfound] at h; simp at h
    | some found =>
      rw [hfound] at h
      cases found with
      | none =>
        simp only [Option.some.injEq] at h
        subst h
        rfl
      | some i =>
        by_cases hd : dataLength < 44
        · simp only [hd, if_true, Option.some.injEq] at h
          subst h
          rfl
        · simp only [hd, if_false, Option.some.injEq] at h
          subst h
          show List.map _ (updateAt _ i s.inverters) = _
          exact updateAt_map _ _ (decodeInformation_address now data) i s.inverters
  | offline timeout now =>
    left
    simp only [RegistryCall.run, checkOfflineInverters] at h
    by_cases hl : s.inverters.length < 256
    · simp only [hl, if_true, Option.some.injEq] at h
      subst h
      simp only [List.map_map]
      apply List.map_congr_left
      intro r _
      by_cases ho : r.isOnline = true <;> simp [ho]
    · simp [hl] at h

/-- After calls that have returned, made on an object whose records have octets as addresses,
the addresses of the records are octets. -/
theorem runCalls_addresses (calls : List RegistryCall) :
    ∀ s0 s : SamilCommunicator, (∀ r ∈ s0.inverters, r.address < 256) →
      runCalls s0 calls = some s → ∀ r ∈ s.inverters, r.address < 256 := by
  induction calls with
  | nil =>
    intro s0 s h0 hrun
    simp only [runCalls, Option.some.injEq] at hrun
    rw [← hrun]; exact h0
  | cons c rest ih =>
    intro s0 s h0 hrun
    simp only [runCalls] at hrun
    cases hstep : c.run s0 with
    | none => rw [hstep] at hrun; simp at hrun
    | some s1 =>
      rw [hstep] at hrun
      refine ih s1 s ?_ hrun
      intro r hr
      have hmem : r.address ∈ s1.inverters.map (·.address) := List.mem_map.mpr ⟨r, hr, rfl⟩
      rcases run_addresses c s0 s1 hstep with he | ⟨a, ha, he⟩
      · rw [he] at hmem
        obtain ⟨q, hq, hqa⟩ := List.mem_map.mp hmem
        rw [← hqa]; exact h0 q hq
      · rw [he] at hmem
        rcases List.mem_append.mp hmem with hm | hm
        · obtain ⟨q, hq, hqa⟩ := List.mem_map.mp hm
          rw [← hqa]; exact h0 q hq
        · simp only [List.mem_singleton] at hm
          rw [hm]; exact ha

/-- After calls that have returned, made on an object whose registry has no two records with
the same key, no two records have the same key. -/
theorem runCalls_keysUnique (calls : List RegistryCall) :
    ∀ s0 s : SamilCommunicator, KeysUnique s0.inverters → (∀ c ∈ calls, c.valid = true) →
      runCalls s0 calls = some s → KeysUnique s.inverters := by
  induction calls with
  | nil =>
    intro s0 s hu _ hrun
    simp only [runCalls, Option.some.injEq] at hrun
    rw [← hrun]; exact hu
  | cons c rest ih =>
    intro s0 s hu hvalid hrun
    simp only [runCalls] at hrun
    cases hstep : c.run s0 with
    | none => rw [hstep] at hrun; simp at hrun
    | some s1 =>
      rw [hstep] at hrun
      exact ih s1 s
        (run_keysUnique c s0 s1 (hvalid c (List.mem_cons_self _ _)) hstep hu)
        (fun d hd => hvalid d (List.mem_cons_of_mem _ hd)) hrun

/-- Pairwise different octets: there are at most 256 of them, and 256 of them are all the
octets. -/
theorem nodup_octets (l : List Nat) (hn : l.Nodup) (hlt : ∀ a ∈ l, a < 256) :
    l.length ≤ 256 ∧ (256 ≤ l.length → ∀ a, a < 256 → a ∈ l) := by
  have hsub : l.toFinset ⊆ Finset.range 256 := by
    intro a ha
    rw [List.mem_toFinset] at ha
    exact Finset.mem_range.mpr (hlt a ha)
  have hcard : l.toFinset.card = l.length := List.toFinset_card_of_nodup hn
  have hle := Finset.card_le_card hsub
  rw [hcard, Finset.card_range] at hle
  refine ⟨hle, fun hfull a ha => ?_⟩
  have heq : l.toFinset = Finset.range 256 :=
    Finset.eq_of_subset_of_card_le hsub (by rw [hcard, Finset.card_range]; exact hfull)
  have : a ∈ l.toFinset := by rw [heq]; exact Finset.mem_range.mpr ha
  exact List.mem_toFinset.mp this

/-- The lookup by address returns when the registry has fewer than 256 records or one of its
first 256 records has the address. -/
theorem getInverterInfoByAddress_ends (inverters : List SamilInverterInformation) (a : Nat)
    (h : inverters.length < 256 ∨ ∃ r ∈ inverters.take 256, r.address = a) :
    ∃ found, getInverterInfoByAddress inverters a = some found := by
  rcases h with hlen | ⟨r, hr, hra⟩
  · exact getInverterInfoByAddress_returns inverters a hlen
  · unfold getInverterInfoByAddress charIndexLoop
    cases hfi : firstIndex (fun r => r.address == a) (inverters.take 256) with
    | some i => exact ⟨_, rfl⟩
    | none =>
      exfalso
      have := (firstIndex_eq_none _ _).mp hfi r hr
      simp [hra] at this

/-- The lookup by address returns in every registry that calls from the empty registry reach,
for every octet. -/
theorem getInverterInfoByAddress_reached (s0 s : SamilCommunicator)
    (calls : List RegistryCall) (h0 : s0.inverters = [])
    (hvalid : ∀ c ∈ calls, c.valid = true) (hrun : runCalls s0 calls = some s) (a : Nat)
    (ha : a < 256) :
    s.inverters.length < 256 ∨ ∃ r ∈ s.inverters.take 256, r.address = a := by
  have hu := runCalls_keysUnique calls s0 s
    (by rw [h0]; exact ⟨List.nodup_nil, List.nodup_nil⟩) hvalid hrun
  have hlt := runCalls_addresses calls s0 s (by rw [h0]; simp) hrun
  have hoct := nodup_octets (s.inverters.map (·.address)) hu.1
    (by intro x hx; obtain ⟨q, hq, rfl⟩ := List.mem_map.mp hx; exact hlt q hq)
  rw [List.length_map] at hoct
  by_cases hlen : s.inverters.length < 256
  · exact Or.inl hlen
  · right
    obtain ⟨r, hr, hra⟩ := List.mem_map.mp (hoct.2 (by omega) a ha)
    exact ⟨r, by rw [List.take_of_length_le hoct.1]; exact hr, hra⟩

/-- C1. Codec round trip: for every 16-bit destination, control code, function code and
payload up to the maximum frame payload (the frame length `7 + L + 2` has to fit the 8-bit
length argument of `parseIncomingData`), a receive buffer
loaded with the octets emitted by `sendData` minus the two synchronization octets passes the
checksum test of `parseIncomingData`, and destination (octets 2-3, high octet first), control
code (octet 4), function code (octet 5), length (octet 6) and payload (from octet 7) read back
from that buffer are the ones that were sent. -/
theorem C1_codec_round_trip (m1 m2 : Nat) (s : SamilCommunicator) (hs : HeaderReady m1 m2 s)
    (d c f : Nat) (p : List Nat) (hd : d < 65536) (_hmax : 7 + p.length + 2 < 256)
    (inputBuffer : List Nat)
    (hload : inputBuffer.take (7 + p.length + 2)
      = ((sendData s d c f p.length p).1.serialOut.drop s.serialOut.length).drop 2) :
    ((sendData s d c f p.length p).1.serialOut.drop s.serialOut.length).take 2 = [0x55, 0xAA]
      ∧ checksumMatches inputBuffer (7 + p.length + 2) = true
      ∧ inputBuffer.getD 2 0 * 256 + inputBuffer.getD 3 0 = d
      ∧ inputBuffer.getD 4 0 = c
      ∧ inputBuffer.getD 5 0 = f
      ∧ inputBuffer.getD 6 0 = p.length
      ∧ (inputBuffer.drop 7).take p.length = p := by
  have hout := (sendData_spec hs d c f p hd).1
  rw [hout, List.drop_left] at hload ⊢
  have hframe : referenceFrame m1 m2 d c f p
      = 0x55 :: 0xAA :: (([m1, m2, d >>> 8, d &&& 0xFF, c, f, p.length] ++ p)
          ++ [((0x55 + 0xAA + ([m1, m2, d >>> 8, d &&& 0xFF, c, f, p.length] ++ p).sum)
                % 65536) >>> 8,
              ((0x55 + 0xAA + ([m1, m2, d >>> 8, d &&& 0xFF, c, f, p.length] ++ p).sum)
                % 65536) &&& 0xFF]) := by
    simp only [referenceFrame, List.cons_append, List.nil_append, List.sum_cons,
      List.sum_append, List.cons.injEq, true_and, List.append_assoc]
    rw [← Nat.add_assoc 85 170]
  rw [hframe] at hload ⊢
  simp only [List.drop_succ_cons, List.drop_zero] at hload
  have hlen : 7 + p.length + 2 = ([m1, m2, d >>> 8, d &&& 0xFF, c, f, p.length] ++ p).length + 2 := by
    simp; omega
  refine ⟨rfl, ?_, ?_, ?_, ?_, ?_, ?_⟩
  · rw [hlen] at hload ⊢
    rw [checksumMatches_frame hload, shr8]
    exact decide_eq_true ⟨rfl, and_ff _⟩
  · rw [getD_of_take hload (by omega), getD_of_take hload (by omega)]
    simp only [List.cons_append, List.getD_cons_succ, List.getD_cons_zero]
    rw [shr8, and_ff]; omega
  · rw [getD_of_take hload (by omega)]; rfl
  · rw [getD_of_take hload (by omega)]; rfl
  · rw [getD_of_take hload (by omega)]; rfl
  · have h1 : (inputBuffer.drop 7).take p.length
        = ((inputBuffer.take (7 + p.length + 2)).drop 7).take p.length := by
      rw [List.drop_take, List.take_take]
      congr 1
      omega
    rw [h1, hload]
    simp

/-- C1, witness: destination `0x0102`, control code 1, function code 2, payload `07 08 09`. -/
theorem C1_codec_round_trip_witness :
    HeaderReady 0 0 example0
      ∧ checksumMatches [0, 0, 1, 2, 1, 2, 3, 7, 8, 9, 1, 32, 0, 0] 12 = true
      ∧ [0, 0, 1, 2, 1, 2, 3, 7, 8, 9, 1, 32, 0, 0].getD 2 0 * 256
          + [0, 0, 1, 2, 1, 2, 3, 7, 8, 9, 1, 32, 0, 0].getD 3 0 = 0x0102
      ∧ ([0, 0, 1, 2, 1, 2, 3, 7, 8, 9, 1, 32, 0, 0].drop 7).take 3 = [7, 8, 9] :=
  have h := C1_codec_round_trip 0 0 example0 (by decide) 0x0102 1 2 [7, 8, 9] (by decide)
    (by decide) [0, 0, 1, 2, 1, 2, 3, 7, 8, 9, 1, 32, 0, 0] (by decide)
  ⟨by decide, h.2.1, h.2.2.1, h.2.2.2.2.2.2⟩

/-- C2. Encoding equals the reference frame: for every 16-bit destination, control code,
function code and payload (of a length that fits the 8-bit `dataLength`), `sendData` emits exactly `55 AA`, the two master-identity octets,
the destination high octet first, control code, function code, payload length, the payload,
and the sum of all these octets modulo 65536, high octet first; it returns the number of
octets emitted. -/
theorem C2_encoding_reference_frame (m1 m2 : Nat) (s : SamilCommunicator)
    (hs : HeaderReady m1 m2 s) (d c f : Nat) (p : List Nat) (hd : d < 65536)
    (_hlen : p.length < 256) :
    (sendData s d c f p.length p).1.serialOut = s.serialOut ++ referenceFrame m1 m2 d c f p
      ∧ (sendData s d c f p.length p).2 = (referenceFrame m1 m2 d c f p).length := by
  refine ⟨(sendData_spec hs d c f p hd).1, ?_⟩
  simp [sendData, referenceFrame]
  omega

/-- C2, witness: with master identity `00 00` the discovery frame is
`55 AA 00 00 00 00 00 00 00 00 FF`. -/
theorem C2_encoding_reference_frame_witness :
    HeaderReady 0 0 example0
      ∧ (sendDiscovery example0).serialOut
          = [0x55, 0xAA, 0x00, 0x00, 0x00, 0x00, 0x00, 0x00, 0x00, 0x00, 0xFF] :=
  ⟨by decide, (C2_encoding_reference_frame 0 0 example0 (by decide) 0 0 0 [] (by decide)
      (by decide)).1⟩

/-- C3. End-to-end registration parse: for every 10-octet serial identifier `S`, an object
that waits for synchronization (header started, receive buffer of at least 19 octets, fewer
than 256 records) and reads `55 AA 00 00 00 00 00 80 0A S` followed by the two checksum octets
calls `parseIncomingData` exactly once, with the 19 octets after the synchronization octets,
and handles the frame as a registration request for `S`: afterwards a record of the registry
holds `S`, the AllocateAddress frame for `S` and the address of that record has been sent, and
the object waits for synchronization again. -/
theorem C3_registration_end_to_end (m1 m2 now : Nat) (s : SamilCommunicator)
    (hs : HeaderReady m1 m2 s) (hstart : s.startPacketReceived = false)
    (hcap : 19 ≤ s.inputBuffer.length) (hreg : s.inverters.length < 256)
    (S : List Nat) (hS : S.length = 10) :
    ∃ s1 r,
      checkIncomingData now s
          ([0x55, 0xAA, 0x00, 0x00, 0x00, 0x00, 0x00, 0x80, 0x0A] ++ S
            ++ [(0x55 + 0xAA + 0x80 + 0x0A + S.sum) % 65536 / 256,
                (0x55 + 0xAA + 0x80 + 0x0A + S.sum) % 65536 % 256]) = some s1
        ∧ dispatched now s
            ([0x55, 0xAA, 0x00, 0x00, 0x00, 0x00, 0x00, 0x80, 0x0A] ++ S
              ++ [(0x55 + 0xAA + 0x80 + 0x0A + S.sum) % 65536 / 256,
                  (0x55 + 0xAA + 0x80 + 0x0A + S.sum) % 65536 % 256])
          = [(19, [0x00, 0x00, 0x00, 0x00, 0x00, 0x80, 0x0A] ++ S
              ++ [(0x55 + 0xAA + 0x80 + 0x0A + S.sum) % 65536 / 256,
                  (0x55 + 0xAA + 0x80 + 0x0A + S.sum) % 65536 % 256])]
        ∧ r ∈ s1.inverters ∧ r.serialNumber.take 10 = S
        ∧ s1.serialOut = s.serialOut ++ referenceFrame m1 m2 0x00 0x00 0x01 (S ++ [r.address])
        ∧ s1.startPacketReceived = false := by
  generalize hhi : (0x55 + 0xAA + 0x80 + 0x0A + S.sum) % 65536 / 256 = hi
  generalize hlo : (0x55 + 0xAA + 0x80 + 0x0A + S.sum) % 65536 % 256 = lo
  have hbs : (S ++ [hi, lo]).length = 0x0A + 2 := by simp [hS]
  have hbs12 : (S ++ [hi, lo]).length = 12 := by simp [hS]
  have hfr := receive_frame now s 0 0 0 0 0 0x80 0x0A (S ++ [hi, lo]) [] hstart hbs
    (by rw [hbs12]; norm_num) (by rw [hbs12]; omega)
  have hoct : [0x55, 0xAA, 0x00, 0x00, 0x00, 0x00, 0x00, 0x80, 0x0A] ++ S ++ [hi, lo]
      = 0x55 :: 0xAA :: 0 :: 0 :: 0 :: 0 :: 0 :: 0x80 :: 0x0A :: ((S ++ [hi, lo]) ++ []) := by
    simp
  rw [hoct]
  rw [hbs12] at hfr
  have hparse := parseIncomingData_registration now
    { s with inputBuffer := [0, 0, 0, 0, 0, 0x80, 0x0A] ++ (S ++ [hi, lo])
                              ++ s.inputBuffer.drop (7 + 12),
             curReceivePtr := 7 + 12, numToRead := 0, startPacketReceived := false,
             lastReceivedByte := 0 }
    S (s.inputBuffer.drop (7 + 12)) hS (by rw [hhi, hlo]; simp)
  rw [hhi, hlo] at hparse
  obtain ⟨s1, r, hreg1, hmem, hser, hout, hst, _⟩ := handleRegistration_total m1 m2 now
    { s with inputBuffer := [0, 0, 0, 0, 0, 0x80, 0x0A] ++ (S ++ [hi, lo])
                              ++ s.inputBuffer.drop (7 + 12),
             curReceivePtr := 7 + 12, numToRead := 0, startPacketReceived := false,
             lastReceivedByte := 0 }
    (S ++ [hi, lo] ++ s.inputBuffer.drop (7 + 12)) hs (by simp [hS]) hreg
  have htake : (S ++ [hi, lo] ++ s.inputBuffer.drop (7 + 12)).take 10 = S := by
    rw [List.append_assoc]
    apply List.take_left'
    exact hS
  rw [htake] at hser hout
  rw [hreg1] at hparse
  rw [show (7 : Nat) + 12 = 19 from rfl] at hfr hparse
  rw [hparse] at hfr
  refine ⟨{ s1 with lastReceived := now }, r, ?_, ?_, hmem, hser, hout, hst⟩
  · unfold checkIncomingData
    rw [if_pos (by simp), hfr.1]
    rfl
  · rw [hfr.2]
    simp only [dispatched, List.append_assoc]

/-- C3, witness: the sequence `55 AA 00 00 00 00 00 80 0A 53 32 32 31 31 35 31 34 31 35 03 A2`
read by a started object with an empty registry. -/
theorem C3_registration_end_to_end_witness :
    ∃ s1 r,
      checkIncomingData 0 example0
          [0x55, 0xAA, 0x00, 0x00, 0x00, 0x00, 0x00, 0x80, 0x0A, 0x53, 0x32, 0x32, 0x31, 0x31,
            0x35, 0x31, 0x34, 0x31, 0x35, 0x03, 0xA2] = some s1
        ∧ dispatched 0 example0
            [0x55, 0xAA, 0x00, 0x00, 0x00, 0x00, 0x00, 0x80, 0x0A, 0x53, 0x32, 0x32, 0x31, 0x31,
              0x35, 0x31, 0x34, 0x31, 0x35, 0x03, 0xA2]
          = [(19, [0x00, 0x00, 0x00, 0x00, 0x00, 0x80, 0x0A, 0x53, 0x32, 0x32, 0x31, 0x31, 0x35,
                0x31, 0x34, 0x31, 0x35, 0x03, 0xA2])]
        ∧ r ∈ s1.inverters
        ∧ r.serialNumber.take 10 = [0x53, 0x32, 0x32, 0x31, 0x31, 0x35, 0x31, 0x34, 0x31, 0x35]
        ∧ s1.serialOut = example0.serialOut ++ referenceFrame 0 0 0x00 0x00 0x01
            ([0x53, 0x32, 0x32, 0x31, 0x31, 0x35, 0x31, 0x34, 0x31, 0x35] ++ [r.address])
        ∧ s1.startPacketReceived = false :=
  C3_registration_end_to_end 0 0 0 example0 (by decide) (by decide) (by decide) (by decide)
    [0x53, 0x32, 0x32, 0x31, 0x31, 0x35, 0x31, 0x34, 0x31, 0x35] (by decide)

/-- C4. Checksum mismatch has no side effects: when the two trailing octets of the assembled
frame, read as a 16-bit number, are not the sum modulo 65536 of `0x55`, `0xAA` and the octets
before them, `parseIncomingData` returns with the object unchanged: same registry, same
cursor, nothing sent, whatever the rest of the frame holds. -/
theorem C4_checksum_mismatch_no_effect (now : Nat) (s : SamilCommunicator) (n : Nat)
    (hmis : 256 * s.inputBuffer.getD (n - 2) 0 + s.inputBuffer.getD (n - 1) 0
      ≠ (0x55 + 0xAA + (s.inputBuffer.take (n - 2)).sum) % 65536) :
    parseIncomingData now s n = some s := by
  have hno : checksumMatches s.inputBuffer n = false := by
    cases hm : checksumMatches s.inputBuffer n with
    | false => rfl
    | true =>
      exfalso
      apply hmis
      simp only [checksumMatches, Bool.and_eq_true, beq_iff_eq] at hm
      rw [crcAdd_eq _ _ (by norm_num), and_ff, and_ff, shr8] at hm
      omega
  simp [parseIncomingData, hno]

/-- C4, witness: the registration request of the specification with its last checksum octet
changed from `A2` to `A3`, in an object whose registry holds one record. -/
theorem C4_checksum_mismatch_no_effect_witness :
    parseIncomingData 0
        (loaded [record1] [0x00, 0x00, 0x00, 0x00, 0x00, 0x80, 0x0A, 0x53, 0x32, 0x32, 0x31,
          0x31, 0x35, 0x31, 0x34, 0x31, 0x35, 0x03, 0xA3]) 19
      = some (loaded [record1] [0x00, 0x00, 0x00, 0x00, 0x00, 0x80, 0x0A, 0x53, 0x32, 0x32,
          0x31, 0x31, 0x35, 0x31, 0x34, 0x31, 0x35, 0x03, 0xA3]) :=
  C4_checksum_mismatch_no_effect 0 _ 19 (by decide)

/-- C5, the code at the failing input: a registration confirmation in the frame layout
(control code `00` at octet 4, function code `81` at octet 5, source address `00 01`) with a
valid checksum, received while the record with address 1 waits for its confirmation, passes
the checksum test and is then dropped: the object is unchanged, so the record is still
unconfirmed and no InformationRequest has been sent.  `parseIncomingData` looks for the two
codes at octets 2 and 3.  Called directly, the handler does confirm the record and sends the
request. -/
theorem C5_confirmation_frame_dropped :
    checksumMatches (loaded [record1] confirmationFrame).inputBuffer 9 = true
      ∧ (loaded [record1] confirmationFrame).inputBuffer.getD 4 0 = 0x00
      ∧ (loaded [record1] confirmationFrame).inputBuffer.getD 5 0 = 0x81
      ∧ parseIncomingData 0 (loaded [record1] confirmationFrame) 9
          = some (loaded [record1] confirmationFrame)
      ∧ (loaded [record1] confirmationFrame).inverters.map (·.addressConfirmed) = [false]
      ∧ (loaded [record1] confirmationFrame).serialOut = []
      ∧ (handleRegistrationConfirmation 0 (loaded [record1] confirmationFrame) 1).map
            (fun s => (s.inverters.map (·.addressConfirmed), s.serialOut))
          = some ([true], referenceFrame 0 0 1 0x01 0x02 []) := by
  decide

/-- C6, the code at the failing input: an information response in the frame layout (control
code `01` at octet 4, function code `81` at octet 5, length 44 at octet 6, source address
`00 01`) with a valid checksum, received while the registry holds the record with address 1,
passes the checksum test and is then dropped: the object is unchanged, so the record is still
offline and has no telemetry.  `parseIncomingData` looks for the two codes at octets 2 and 3.
Called directly on the payload, the decoder does put the record online. -/
theorem C6_information_frame_dropped :
    checksumMatches (loaded [record1] informationFrame).inputBuffer 53 = true
      ∧ (loaded [record1] informationFrame).inputBuffer.getD 4 0 = 0x01
      ∧ (loaded [record1] informationFrame).inputBuffer.getD 5 0 = 0x81
      ∧ (loaded [record1] informationFrame).inputBuffer.getD 6 0 = 44
      ∧ parseIncomingData 7 (loaded [record1] informationFrame) 53
          = some (loaded [record1] informationFrame)
      ∧ (loaded [record1] informationFrame).inverters.map (fun r => (r.isOnline, r.lastSeen))
          = [(false, 0)]
      ∧ (handleIncomingInformation 7 (loaded [record1] informationFrame) 1 44
            ((loaded [record1] informationFrame).inputBuffer.drop 7)).map
            (fun s => s.inverters.map (fun r => (r.isOnline, r.lastSeen)))
          = some [(true, 7)] := by
  decide

/-- C7. Registry key uniqueness is an invariant: starting from an empty registry, after any
finite sequence of calls of `handleRegistration` (for 10-octet serial identifiers),
`handleRegistrationConfirmation`, `handleIncomingInformation` and `checkOfflineInverters` that
have returned, no two records have the same address and no two records have the same 10-octet
serial identifier; and as long as there are fewer than 256 records, every further call
returns. -/
theorem C7_registry_keys_unique (s0 : SamilCommunicator) (h0 : s0.inverters = [])
    (calls : List RegistryCall) (hvalid : ∀ c ∈ calls, c.valid = true)
    (s : SamilCommunicator) (hrun : runCalls s0 calls = some s) :
    KeysUnique s.inverters
      ∧ (s.inverters.length < 256 → ∀ c : RegistryCall, ∃ s1, c.run s = some s1) := by
  have hinv : ∀ (calls : List RegistryCall) (s0 s : SamilCommunicator),
      KeysUnique s0.inverters → (∀ c ∈ calls, c.valid = true) → runCalls s0 calls = some s →
      KeysUnique s.inverters := by
    intro calls
    induction calls with
    | nil =>
      intro s0 s hu _ hrun
      simp only [runCalls, Option.some.injEq] at hrun
      rw [← hrun]; exact hu
    | cons c rest ih =>
      intro s0 s hu hvalid hrun
      simp only [runCalls] at hrun
      cases hstep : c.run s0 with
      | none => rw [hstep] at hrun; simp at hrun
      | some s1 =>
        rw [hstep] at hrun
        exact ih s1 s
          (run_keysUnique c s0 s1 (hvalid c (List.mem_cons_self _ _)) hstep hu)
          (fun d hd => hvalid d (List.mem_cons_of_mem _ hd)) hrun
  refine ⟨hinv calls s0 s (by rw [h0]; exact ⟨List.nodup_nil, List.nodup_nil⟩) hvalid hrun, ?_⟩
  intro hlen c
  exact run_returns c s hlen

/-- C7, witness: two registrations, a confirmation, an information response, a liveness check
and a repeated registration. -/
theorem C7_registry_keys_unique_witness :
    ∃ s, runCalls example0
        [.registration 0 (serialOf 7), .registration 1 (serialOf 8), .confirmation 2 1,
          .information 3 1 44 (List.replicate 48 1), .offline 30000 40000,
          .registration 50000 (serialOf 7)] = some s
      ∧ s.inverters.length = 2 ∧ KeysUnique s.inverters := by
  obtain ⟨s, hs⟩ := Option.isSome_iff_exists.mp
    (show (runCalls example0
        [.registration 0 (serialOf 7), .registration 1 (serialOf 8), .confirmation 2 1,
          .information 3 1 44 (List.replicate 48 1), .offline 30000 40000,
          .registration 50000 (serialOf 7)]).isSome = true by decide)
  have hlen : s.inverters.length = 2 := by
    have : (runCalls example0
        [.registration 0 (serialOf 7), .registration 1 (serialOf 8), .confirmation 2 1,
          .information 3 1 44 (List.replicate 48 1), .offline 30000 40000,
          .registration 50000 (serialOf 7)]).map (fun s => s.inverters.length) = some 2 := by
      decide
    rw [hs] at this
    exact Option.some.inj this
  exact ⟨s, hs, hlen, (C7_registry_keys_unique example0 (by decide) _ (by decide) s hs).1⟩

/-- C8, as amended. Starting from the initial state (empty registry, cursor 0), after any
sequence of registration requests that the allocator completes and that leaves at most 255
records, the addresses of the records are 1, 2, ..., n in registry order, n being the number
of records, and the cursor stands at n: every address is at least 1, and at most 254 as long
as there are at most 254 records.  The cursor is a plain 8-bit counter and does not wrap
within 1..254. -/
theorem C8_addresses_follow_cursor (now : Nat) (s0 : SamilCommunicator)
    (h0 : s0.inverters = []) (hc : s0.lastUsedAddress = 0) (reqs : List (List Nat))
    (s : SamilCommunicator) (hrun : registerAll now s0 reqs = some s)
    (hn : s.inverters.length ≤ 255) :
    s.inverters.map (·.address) = List.range' 1 s.inverters.length
      ∧ s.lastUsedAddress = s.inverters.length
      ∧ (∀ r ∈ s.inverters, 1 ≤ r.address ∧ r.address ≤ s.inverters.length)
      ∧ (s.inverters.length ≤ 254 → ∀ r ∈ s.inverters, 1 ≤ r.address ∧ r.address ≤ 254) := by
  have hseq := sequential_registerAll now reqs s0 s (sequential_of_empty s0 h0 hc) hrun hn
  have hall : ∀ r ∈ s.inverters, 1 ≤ r.address ∧ r.address ≤ s.inverters.length := by
    intro r hr
    have hmem : r.address ∈ s.inverters.map (·.address) := List.mem_map.mpr ⟨r, hr, rfl⟩
    rw [hseq.1, List.mem_range'_1] at hmem
    omega
  refine ⟨hseq.1, hseq.2, hall, ?_⟩
  intro h254 r hr
  have := hall r hr
  omega

/-- C8, witness: three registration requests, the third for the identifier of the first. -/
theorem C8_addresses_follow_cursor_witness :
    ∃ s, registerAll 0 example0 [serialOf 7, serialOf 8, serialOf 7] = some s
      ∧ s.inverters.map (·.address) = [1, 2] ∧ s.lastUsedAddress = 2 := by
  obtain ⟨s, hs⟩ := Option.isSome_iff_exists.mp
    (show (registerAll 0 example0 [serialOf 7, serialOf 8, serialOf 7]).isSome = true by decide)
  have hlen : s.inverters.length = 2 := by
    have : (registerAll 0 example0 [serialOf 7, serialOf 8, serialOf 7]).map
        (fun s => s.inverters.length) = some 2 := by decide
    rw [hs] at this
    exact Option.some.inj this
  have h := C8_addresses_follow_cursor 0 example0 (by decide) (by decide)
    [serialOf 7, serialOf 8, serialOf 7] s hs (by omega)
  rw [hlen] at h
  exact ⟨s, hs, h.1, h.2.1⟩

/-- C8, counterexample: from the initial state, registration requests for 255 different
serial identifiers are all completed, and the last record gets address 255, outside
1..254. -/
theorem C8_address_255_handed_out :
    ∃ s, registerAll 0 example0 ((List.range 255).map serialOf) = some s
      ∧ s.inverters.length = 255
      ∧ ∃ r ∈ s.inverters, r.address = 255 ∧ ¬ (1 ≤ r.address ∧ r.address ≤ 254) := by
  obtain ⟨s, hrun, hseq, hser⟩ := sequential_register_distinct 0
    ((List.range 255).map serialOf) example0 (by decide)
    (by simpa [example0, start, constructed] using serialOf_nodup 255)
    (by intro S hS; obtain ⟨i, _, rfl⟩ := List.mem_map.mp hS; rfl)
    (by simp [example0, start, constructed])
  have hlen : s.inverters.length = 255 := by
    have := congrArg List.length hser
    simpa [example0, start, constructed] using this
  have hmem : 255 ∈ s.inverters.map (·.address) := by
    rw [hseq.1, hlen, List.mem_range'_1]
    omega
  obtain ⟨r, hr, hra⟩ := List.mem_map.mp hmem
  exact ⟨s, hrun, hlen, r, hr, hra, by omega⟩

/-- C9. Re-registration idempotence: when the record `r` is the first record of the registry
that holds the serial identifier `S` (after fewer than 256 others), `handleRegistration` for
`S` keeps the number of records and the cursor, keeps every record but `r`, keeps `r` but
for `addressConfirmed = false` and `lastSeen = now`, and sends exactly one AllocateAddress
frame, with payload `S` followed by the address of `r`; a second registration of `S`
announces the same address and keeps the number of records again. -/
theorem C9_reregistration_idempotent (m1 m2 now : Nat) (s : SamilCommunicator)
    (hs : HeaderReady m1 m2 s) (S : List Nat) (hS : S.length = 10)
    (pre : List SamilInverterInformation) (r : SamilInverterInformation)
    (post : List SamilInverterInformation) (hreg : s.inverters = pre ++ r :: post)
    (hpre : pre.length < 256) (hfirst : ∀ q ∈ pre, q.serialNumber.take 10 ≠ S)
    (hr : r.serialNumber.take 10 = S) :
    ∃ s1, handleRegistration now s S 10 = some s1
      ∧ s1.inverters = pre ++ { r with addressConfirmed := false, lastSeen := now } :: post
      ∧ s1.inverters.length = s.inverters.length
      ∧ s1.lastUsedAddress = s.lastUsedAddress
      ∧ s1.serialOut = s.serialOut ++ referenceFrame m1 m2 0x00 0x00 0x01 (S ++ [r.address])
      ∧ ∀ later, ∃ s2, handleRegistration later s1 S 10 = some s2
          ∧ s2.inverters.length = s.inverters.length
          ∧ s2.lastUsedAddress = s.lastUsedAddress
          ∧ s2.serialOut
              = s1.serialOut ++ referenceFrame m1 m2 0x00 0x00 0x01 (S ++ [r.address]) := by
  obtain ⟨s1, h1, hinv1, hcur1, hout1, hs1⟩ :=
    handleRegistration_again now s hs S hS pre r post hreg hpre hfirst hr
  refine ⟨s1, h1, hinv1, by rw [hinv1, hreg]; simp, hcur1, hout1, ?_⟩
  intro later
  obtain ⟨s2, h2, hinv2, hcur2, hout2, _⟩ :=
    handleRegistration_again later s1 hs1 S hS pre
      { r with addressConfirmed := false, lastSeen := now } post hinv1 hpre hfirst hr
  exact ⟨s2, h2, by rw [hinv2, hreg]; simp, by rw [hcur2, hcur1], hout2⟩

/-- C9, witness: the serial identifier of the record with address 1 is registered again at
time 5. -/
theorem C9_reregistration_idempotent_witness :
    ∃ s1, handleRegistration 5 (loaded [record1] []) record1.serialNumber.dropLast 10 = some s1
      ∧ s1.inverters = [{ record1 with addressConfirmed := false, lastSeen := 5 }]
      ∧ s1.serialOut = referenceFrame 0 0 0x00 0x00 0x01
          [0x53, 0x32, 0x32, 0x31, 0x31, 0x35, 0x31, 0x34, 0x31, 0x35, 1] := by
  obtain ⟨s1, h1, h2, _, _, h5, _⟩ := C9_reregistration_idempotent 0 0 5 (loaded [record1] [])
    (by decide) record1.serialNumber.dropLast (by decide) [] record1 [] (by decide) (by decide)
    (by decide) (by decide)
  exact ⟨s1, h1, h2, h5⟩

/-- C10, as amended. First registration creates one fresh record: in every registry with
fewer than 256 records and a free address, `handleRegistration` for a 10-octet serial
identifier `S` that no record holds appends exactly one record at the end of the registry
(the other records and their order unchanged), with serial identifier `S`,
`addressConfirmed = false`, `isOnline = false` and an address that no earlier record has, and
sends one AllocateAddress frame (destination 0, control `00`, function `01`, length 11,
payload `S` followed by that address).  From the initial state, registering `n ≤ 255`
pairwise different identifiers therefore gives each a record of its own, with the addresses
1, 2, ..., n in registry order: pairwise different, non-zero and increasing. -/
theorem C10_first_registration :
    (∀ (m1 m2 now : Nat) (s : SamilCommunicator) (S : List Nat), HeaderReady m1 m2 s →
      S.length = 10 → s.inverters.length < 256 →
      (∀ q ∈ s.inverters, q.serialNumber.take 10 ≠ S) →
      (∃ a, a < 256 ∧ AddressFree s.inverters a) →
      ∃ s1 a, handleRegistration now s S 10 = some s1
        ∧ s1.inverters = s.inverters ++ [{ newInverter now S with address := a }]
        ∧ ({ newInverter now S with address := a } : SamilInverterInformation).serialNumber
            = S ++ [0]
        ∧ ({ newInverter now S with address := a } : SamilInverterInformation).addressConfirmed
            = false
        ∧ ({ newInverter now S with address := a } : SamilInverterInformation).isOnline = false
        ∧ a < 256 ∧ AddressFree s.inverters a
        ∧ s1.lastUsedAddress = a
        ∧ s1.serialOut = s.serialOut ++ referenceFrame m1 m2 0x00 0x00 0x01 (S ++ [a])
        ∧ (S ++ [a]).length = 11)
    ∧ (∀ (now : Nat) (s0 : SamilCommunicator) (serials : List (List Nat)),
        s0.inverters = [] → s0.lastUsedAddress = 0 → serials.Nodup →
        (∀ S ∈ serials, S.length = 10) → serials.length ≤ 255 →
        ∃ s1, registerAll now s0 serials = some s1
          ∧ s1.inverters.map (fun r => r.serialNumber.take 10) = serials
          ∧ s1.inverters.map (·.address) = List.range' 1 serials.length) := by
  constructor
  · intro m1 m2 now s S hs hS hlen hnew hfree
    obtain ⟨s1, a, h, _, ha, hafree, hinv, hcur, hout, _⟩ :=
      handleRegistration_first now s hs S hS hlen hnew hfree
    refine ⟨s1, a, h, hinv, ?_, rfl, rfl, ha, hafree, hcur, hout, by simp [hS]⟩
    simp only [newInverter]
    rw [List.take_of_length_le (le_of_eq hS)]
  · intro now s0 serials h0 hc hnd h10 hn
    obtain ⟨s1, hrun, hseq, hser⟩ := sequential_register_distinct now serials s0
      (sequential_of_empty s0 h0 hc) (by rw [h0]; simpa using hnd) h10
      (by rw [h0]; simpa using hn)
    rw [h0] at hser
    simp only [List.map_nil, List.nil_append] at hser
    refine ⟨s1, hrun, hser, ?_⟩
    have hl : s1.inverters.length = serials.length := by
      have := congrArg List.length hser
      simpa using this
    rw [hseq.1, hl]

/-- C10, witness: a fourth identifier registered behind the record with address 1, and three
different identifiers registered from the initial state, which get the addresses 1, 2, 3. -/
theorem C10_first_registration_witness :
    (∃ s1 a, handleRegistration 9 (loaded [record1] []) (serialOf 4) 10 = some s1
        ∧ s1.inverters = [record1, { newInverter 9 (serialOf 4) with address := a }]
        ∧ AddressFree [record1] a)
      ∧ ∃ s1, registerAll 0 example0 [serialOf 1, serialOf 2, serialOf 3] = some s1
          ∧ s1.inverters.map (·.address) = [1, 2, 3] := by
  constructor
  · obtain ⟨s1, a, h, hinv, _, _, _, _, hfree, _⟩ := C10_first_registration.1 0 0 9
      (loaded [record1] []) (serialOf 4) (by decide) (by decide) (by decide) (by decide)
      ⟨0, by decide, by decide⟩
    exact ⟨s1, a, h, hinv, hfree⟩
  · obtain ⟨s1, hrun, _, haddr⟩ := C10_first_registration.2 0 example0
      [serialOf 1, serialOf 2, serialOf 3] (by decide) (by decide) (by decide) (by decide)
      (by decide)
    exact ⟨s1, hrun, haddr⟩

/-- C10, counterexample: from the initial state, registration requests for 256 different
serial identifiers are all completed; the first 255 records have the addresses 1..255 and the
256th record gets the address 0, which is neither non-zero nor above the address before it. -/
theorem C10_address_zero_handed_out :
    ∃ s, registerAll 0 example0 ((List.range 256).map serialOf) = some s
      ∧ s.inverters.map (fun r => r.serialNumber.take 10) = (List.range 256).map serialOf
      ∧ s.inverters.map (·.address) = List.range' 1 255 ++ [0] :=
  registerAll_256_identifiers

/-- C11. Confirmation handler postcondition: for every address `A` (an octet),
`handleRegistrationConfirmation` (i) when the record `r` is the first record with address `A`
(after fewer than 256 others), sets `addressConfirmed = true`, `isOnline = false` and
`lastSeen = now` in `r` and changes nothing else in the registry; (ii) when no record has
address `A` (in a registry of fewer than 256 records), leaves the registry unchanged; and in
both cases keeps the cursor and sends exactly one InformationRequest frame: destination `A`,
control `01`, function `02`, empty payload. -/
theorem C11_confirmation_postcondition (m1 m2 now : Nat) (s : SamilCommunicator)
    (hs : HeaderReady m1 m2 s) (A : Nat) (hA : A < 256) :
    (∀ (pre : List SamilInverterInformation) (r : SamilInverterInformation)
        (post : List SamilInverterInformation), s.inverters = pre ++ r :: post →
        pre.length < 256 → (∀ q ∈ pre, q.address ≠ A) → r.address = A →
        ∃ s1, handleRegistrationConfirmation now s A = some s1
          ∧ s1.inverters
              = pre ++ { r with addressConfirmed := true, isOnline := false, lastSeen := now }
                  :: post
          ∧ s1.lastUsedAddress = s.lastUsedAddress
          ∧ s1.serialOut = s.serialOut ++ referenceFrame m1 m2 A 0x01 0x02 [])
      ∧ (s.inverters.length < 256 → AddressFree s.inverters A →
        ∃ s1, handleRegistrationConfirmation now s A = some s1
          ∧ s1.inverters = s.inverters
          ∧ s1.lastUsedAddress = s.lastUsedAddress
          ∧ s1.serialOut = s.serialOut ++ referenceFrame m1 m2 A 0x01 0x02 []) := by
  constructor
  · intro pre r post hreg hpre hfirst hr
    have hfound := getInverterInfoByAddress_found pre r post A hpre hfirst hr
    have hsend := askInverterForInformation_spec m1 m2
      { s with inverters :=
          pre ++ { r with addressConfirmed := true, isOnline := false, lastSeen := now }
            :: post } hs A (by omega)
    have hrun : handleRegistrationConfirmation now s A = some (askInverterForInformation
        { s with inverters :=
            pre ++ { r with addressConfirmed := true, isOnline := false, lastSeen := now }
              :: post } A) := by
      unfold handleRegistrationConfirmation
      rw [hreg, hfound]
      simp only [updateAt_append]
    exact ⟨_, hrun, rfl, rfl, hsend.1⟩
  · intro hlen hfree
    have hsend := askInverterForInformation_spec m1 m2 s hs A (by omega)
    have hrun : handleRegistrationConfirmation now s A
        = some (askInverterForInformation s A) := by
      unfold handleRegistrationConfirmation
      rw [getInverterInfoByAddress_free s.inverters A hlen hfree]
    exact ⟨_, hrun, rfl, rfl, hsend.1⟩

/-- C11, witness: the confirmation of address 1, held by the only record, and of address 9,
held by no record. -/
theorem C11_confirmation_postcondition_witness :
    (∃ s1, handleRegistrationConfirmation 5 (loaded [record1] []) 1 = some s1
        ∧ s1.inverters
            = [{ record1 with addressConfirmed := true, isOnline := false, lastSeen := 5 }]
        ∧ s1.serialOut = referenceFrame 0 0 1 0x01 0x02 [])
      ∧ ∃ s1, handleRegistrationConfirmation 5 (loaded [record1] []) 9 = some s1
          ∧ s1.inverters = [record1]
          ∧ s1.serialOut = referenceFrame 0 0 9 0x01 0x02 [] := by
  constructor
  · obtain ⟨s1, h1, h2, _, h4⟩ :=
      (C11_confirmation_postcondition 0 0 5 (loaded [record1] []) (by decide) 1 (by decide)).1
        [] record1 [] (by decide) (by decide) (by decide) (by decide)
    exact ⟨s1, h1, h2, h4⟩
  · obtain ⟨s1, h1, h2, _, h4⟩ :=
      (C11_confirmation_postcondition 0 0 5 (loaded [record1] []) (by decide) 9 (by decide)).2
        (by decide) (by decide)
    exact ⟨s1, h1, h2, h4⟩

/-- C12. Rejected telemetry changes nothing: when no record has address `A` or the declared
payload length is below 44, `handleIncomingInformation` changes nothing and sends nothing, in
every registry state: an object that it returns is the object it was called on (every field of
every record is what it was, telemetry, `lastSeen` and `isOnline` of record `A` included, and
the serial output has not grown).  The call returns whenever its lookup by address ends, which
is when the registry has fewer than 256 records or one of its first 256 records has the
address `A`; that is so for every octet `A` in every registry state that calls of the four
registry functions reach from the empty registry, the registry of 256 records included. -/
theorem C12_rejected_telemetry_no_effect (now : Nat) (s : SamilCommunicator)
    (A dataLength : Nat) (data : List Nat)
    (hrej : AddressFree s.inverters A ∨ dataLength < 44) :
    (∀ s1, handleIncomingInformation now s A dataLength data = some s1 → s1 = s)
      ∧ ((s.inverters.length < 256 ∨ ∃ r ∈ s.inverters.take 256, r.address = A) →
          handleIncomingInformation now s A dataLength data = some s)
      ∧ ∀ (s0 : SamilCommunicator) (calls : List RegistryCall), s0.inverters = [] →
          (∀ c ∈ calls, c.valid = true) → runCalls s0 calls = some s → A < 256 →
          handleIncomingInformation now s A dataLength data = some s := by
  have hsafe : ∀ s1, handleIncomingInformation now s A dataLength data = some s1 → s1 = s := by
    intro s1 h
    unfold handleIncomingInformation at h
    cases hfound : getInverterInfoByAddress s.inverters A with
    | none => rw [hfound] at h; simp at h
    | some found =>
      rw [hfound] at h
      cases found with
      | none => exact (Option.some.inj h).symm
      | some i =>
        rcases hrej with hfree | hshort
        · exfalso
          unfold getInverterInfoByAddress at hfound
          obtain ⟨pre, x, post, hsplit, _, _, hx, _⟩ := charIndexLoop_some _ _ i hfound
          have hmem : x ∈ s.inverters := by rw [hsplit]; simp
          exact hfree x hmem (by simpa using hx)
        · simp only [hshort, if_true, Option.some.injEq] at h
          exact h.symm
  have hret : (s.inverters.length < 256 ∨ ∃ r ∈ s.inverters.take 256, r.address = A) →
      handleIncomingInformation now s A dataLength data = some s := by
    intro hend
    obtain ⟨found, hfound⟩ := getInverterInfoByAddress_ends s.inverters A hend
    have hsome : ∃ s1, handleIncomingInformation now s A dataLength data = some s1 := by
      unfold handleIncomingInformation
      rw [hfound]
      cases found with
      | none => exact ⟨_, rfl⟩
      | some i => by_cases hd : dataLength < 44 <;> simp [hd]
    obtain ⟨s1, h1⟩ := hsome
    rw [h1, hsafe s1 h1]
  exact ⟨hsafe, hret, fun s0 calls h0 hvalid hrun hA =>
    hret (getInverterInfoByAddress_reached s0 s calls h0 hvalid hrun A hA)⟩

/-- C12, witness: a payload of declared length 43 for the record with address 1, and a payload
of declared length 43 for the address 3 in the registry of 256 records that 256 registration
requests leave behind. -/
theorem C12_rejected_telemetry_no_effect_witness :
    handleIncomingInformation 7 (loaded [record1] informationFrame) 1 43
        ((loaded [record1] informationFrame).inputBuffer.drop 7)
      = some (loaded [record1] informationFrame)
      ∧ ∃ s, registerAll 0 example0 ((List.range 256).map serialOf) = some s
          ∧ s.inverters.length = 256
          ∧ handleIncomingInformation 7 s 3 43 [] = some s := by
  refine ⟨(C12_rejected_telemetry_no_effect 7 (loaded [record1] informationFrame) 1 43 _
    (Or.inr (by decide))).2.1 (Or.inl (by decide)), ?_⟩
  obtain ⟨s, hrun, _, haddr⟩ := registerAll_256_identifiers
  have hlen : s.inverters.length = 256 := by
    have := congrArg List.length haddr
    simpa using this
  refine ⟨s, hrun, hlen, ?_⟩
  apply (C12_rejected_telemetry_no_effect 7 s 3 43 [] (Or.inr (by decide))).2.1
  right
  have hmem : 3 ∈ s.inverters.map (·.address) := by
    rw [haddr]
    apply List.mem_append_left
    rw [List.mem_range'_1]
    omega
  obtain ⟨r, hr, hra⟩ := List.mem_map.mp hmem
  exact ⟨r, by rw [List.take_of_length_le (by omega)]; exact hr, hra⟩

/-- C13. Default-variant telemetry layout: when the record `r` with address `A` (the first
with that address, after fewer than 256 others) has the series-variant flag false and the
declared length is at least 44, `handleIncomingInformation` leaves in `r`, with
`be16 i = 256 * P[i] + P[i+1]` and exact rational quotients: DC voltage 1 `be16 0 / 10`, DC
voltage 2 `be16 2 / 10`, DC current 1 `be16 4 / 10`, DC current 2 `be16 6 / 10`, AC voltage 1
`be16 8 / 10`, AC current 1 `be16 10 / 10`, AC frequency 1 `be16 12 / 100`, output power
`be16 14`, operating mode `be16 16`, temperature `be16 18 / 10`, `isOnline = true` and
`lastSeen = now`; the AC fields of channels 2 and 3 and every other record keep their values
(the daily energy becomes `be16 44 / 10`). -/
theorem C13_default_variant_layout (now : Nat) (s : SamilCommunicator) (A dataLength : Nat)
    (data : List Nat) (pre : List SamilInverterInformation) (r : SamilInverterInformation)
    (post : List SamilInverterInformation) (hreg : s.inverters = pre ++ r :: post)
    (hpre : pre.length < 256) (hfirst : ∀ q ∈ pre, q.address ≠ A) (hr : r.address = A)
    (hdt : r.isDTSeries = false) (hlen : 44 ≤ dataLength) (hoct : ∀ x ∈ data, x < 256) :
    handleIncomingInformation now s A dataLength data
      = some { s with inverters := pre ++
          { r with
            lastSeen := now,
            vpv1 := (be16 data 0 : ℚ) / 10, vpv2 := (be16 data 2 : ℚ) / 10,
            ipv1 := (be16 data 4 : ℚ) / 10, ipv2 := (be16 data 6 : ℚ) / 10,
            vac1 := (be16 data 8 : ℚ) / 10, iac1 := (be16 data 10 : ℚ) / 10,
            fac1 := (be16 data 12 : ℚ) / 100,
            pac := be16 data 14, workMode := be16 data 16,
            temp := (be16 data 18 : ℚ) / 10, eDay := (be16 data 44 : ℚ) / 10,
            isOnline := true } :: post } := by
  have hfound := getInverterInfoByAddress_found pre r post A hpre hfirst hr
  unfold handleIncomingInformation
  rw [hreg, hfound]
  simp only [show ¬ dataLength < 44 by omega, if_false, updateAt_append,
    decodeInformation_default now data hoct r hdt]

/-- C13, witness: the 44-octet payload that starts with `09 60`, followed by the checksum
octets `02 17`, decoded for the record with address 1 at time 7: DC voltage 1 is 240. -/
theorem C13_default_variant_layout_witness :
    (handleIncomingInformation 7 (loaded [record1] []) 1 44
        ([0x09, 0x60] ++ List.replicate 42 0 ++ [0x02, 0x17])).map
        (fun s => s.inverters.map (fun r => (r.vpv1, r.pac, r.isOnline, r.lastSeen)))
      = some [(240, 0, true, 7)] := by
  rw [C13_default_variant_layout 7 (loaded [record1] []) 1 44
    ([0x09, 0x60] ++ List.replicate 42 0 ++ [0x02, 0x17]) [] record1 [] (by decide)
    (by decide) (by decide) (by decide) (by decide) (by decide) (by decide)]
  simp [be16]
  norm_num

/-- C14, the code at the failing input: a payload of exactly 44 octets (all zero) decoded for
the record with address 1.  The daily energy that the record gets is made of the two octets
that follow the payload in the receive buffer: `53.5` when the octets `02 17` follow, `0` when
two zero octets follow.  With the series-variant flag set the decoder reads the octets 64 and
65 from the start of the payload.  The same happens on the way through `parseIncomingData`:
for the 49-octet frame `staleFrame`, which passes the checksum test and declares 44 payload
octets, the daily energy is read from the octets 49 and 50 of the receive buffer, behind the
frame. -/
theorem C14_daily_energy_read_behind_payload :
    (handleIncomingInformation 7 (loaded [record1] []) 1 44
        (List.replicate 44 0 ++ [0x02, 0x17])).map (fun s => s.inverters.map (·.eDay))
        = some [535 / 10]
      ∧ (handleIncomingInformation 7 (loaded [record1] []) 1 44
          (List.replicate 44 0 ++ [0x00, 0x00])).map (fun s => s.inverters.map (·.eDay))
        = some [0]
      ∧ (handleIncomingInformation 7 (loaded [{ record1 with isDTSeries := true }] []) 1 44
          (List.replicate 44 0 ++ List.replicate 20 0 ++ [0x01, 0x00])).map
          (fun s => s.inverters.map (·.eDay))
        = some [256 / 10]
      ∧ checksumMatches (loaded [record1] staleFrame).inputBuffer 49 = true
      ∧ (parseIncomingData 7 (loaded [record1] staleFrame) 49).map
          (fun s => s.inverters.map (·.eDay))
        = some [535 / 10] := by
  have hparse : parseIncomingData 7 (loaded [record1] staleFrame) 49
      = handleIncomingInformation 7 (loaded [record1] staleFrame) 1 44
          ((loaded [record1] staleFrame).inputBuffer.drop 5) := rfl
  refine ⟨?_, ?_, ?_, by decide, ?_⟩
  · rw [handleIncomingInformation_eDay 7 _ record1 _ rfl rfl]
    simp [record1, newInverter, newInverterDefault, bytesToFloat]
  · rw [handleIncomingInformation_eDay 7 _ record1 _ rfl rfl]
    simp [record1, newInverter, newInverterDefault, bytesToFloat]
  · rw [handleIncomingInformation_eDay 7 _ _ _ rfl rfl]
    simp [bytesToFloat]
  · rw [hparse, handleIncomingInformation_eDay 7 _ record1 _ rfl rfl]
    simp [record1, newInverter, newInverterDefault, bytesToFloat, loaded, staleFrame]

/-- C15, as amended. Liveness reclassification, with `elapsed = (now - lastSeen) mod 2^32` for
each record.  In every registry of fewer than 256 records `checkOfflineInverters` returns an
object that differs from the old one in the `isOnline` flags only: a record that was online
with `elapsed` above the threshold, or equal to it, is offline, a record that was online with
`elapsed` below the threshold is still online (also when `now` is smaller than `lastSeen`
because the clock has wrapped), a record that was offline is still offline; addresses, serial
identifiers, `addressConfirmed`, `lastSeen`, telemetry, the number and order of the records,
the cursor and the serial output (no frame is sent) are what they were.  In every registry
of 256 records or more the call never returns: the 8-bit index of its loop stays below the
number of records. -/
theorem C15_liveness_reclassification (OFFLINE_TIMEOUT now : Nat) (s : SamilCommunicator) :
    (s.inverters.length < 256 →
      ∃ s1, checkOfflineInverters OFFLINE_TIMEOUT now s = some s1
        ∧ s1 = { s with inverters := s1.inverters }
        ∧ s1.serialOut = s.serialOut
        ∧ s1.inverters.length = s.inverters.length
        ∧ List.Forall₂
            (fun r r1 : SamilInverterInformation =>
              r1 = { r with isOnline := r1.isOnline }
                ∧ (r.isOnline = true → elapsed now r.lastSeen > OFFLINE_TIMEOUT →
                    r1.isOnline = false)
                ∧ (r.isOnline = true → elapsed now r.lastSeen < OFFLINE_TIMEOUT →
                    r1.isOnline = true)
                ∧ (r.isOnline = false → r1.isOnline = false)
                ∧ (r.isOnline = true → elapsed now r.lastSeen = OFFLINE_TIMEOUT →
                    r1.isOnline = false))
            s.inverters s1.inverters)
      ∧ (256 ≤ s.inverters.length → checkOfflineInverters OFFLINE_TIMEOUT now s = none)
      ∧ ∀ earlier, now < 4294967296 → earlier < 4294967296 →
          (elapsed now earlier : ℤ) = ((now : ℤ) - (earlier : ℤ)) % 4294967296 := by
  refine ⟨?_, ?_, fun earlier hn he => elapsed_eq_emod now earlier hn he⟩
  · intro hlen
    have hrun : checkOfflineInverters OFFLINE_TIMEOUT now s
        = some { s with inverters := s.inverters.map (fun r =>
            if r.isOnline then
              { r with isOnline := decide (elapsed now r.lastSeen < OFFLINE_TIMEOUT) }
            else r) } := by
      simp only [checkOfflineInverters, hlen, if_true]
    refine ⟨_, hrun, rfl, rfl, by simp, ?_⟩
    show List.Forall₂ _ s.inverters (List.map _ s.inverters)
    rw [List.forall₂_map_right_iff, List.forall₂_same]
    intro r _
    by_cases ho : r.isOnline = true
    · simp only [ho, if_true, true_implies, decide_eq_false_iff_not, decide_eq_true_eq,
        Bool.true_eq_false, false_implies, and_true, true_and]
      exact ⟨fun h => by omega, fun h => h, fun h => by omega⟩
    · simp only [Bool.not_eq_true] at ho
      simp only [ho, Bool.false_eq_true, if_false, false_implies, true_implies, and_true]
      cases r
      simp_all
  · intro hlen
    have hnot : ¬ s.inverters.length < 256 := by omega
    simp only [checkOfflineInverters, hnot, if_false]

/-- C15, witness: threshold 30000 at clock value 50 just after the clock has wrapped; a
record last seen 150 ms ago (`lastSeen = 2^32 - 100`) stays online, a record last seen
40050 ms ago goes offline, an offline record stays offline. -/
theorem C15_liveness_reclassification_witness :
    (checkOfflineInverters 30000 50
        (loaded [{ record1 with isOnline := true, lastSeen := 4294967196 },
                 { record1 with address := 2, isOnline := true, lastSeen := 4294927296 },
                 { record1 with address := 3, isOnline := false, lastSeen := 40 }] [])).map
        (fun s => (s.inverters.map (fun r => (r.address, r.isOnline, r.lastSeen)), s.serialOut))
      = some ([(1, true, 4294967196), (2, false, 4294927296), (3, false, 40)], []) := by
  obtain ⟨s1, h1, _, _, _, _⟩ := (C15_liveness_reclassification 30000 50
    (loaded [{ record1 with isOnline := true, lastSeen := 4294967196 },
             { record1 with address := 2, isOnline := true, lastSeen := 4294927296 },
             { record1 with address := 3, isOnline := false, lastSeen := 40 }] [])).1 (by decide)
  rw [h1]
  have h2 : checkOfflineInverters 30000 50
      (loaded [{ record1 with isOnline := true, lastSeen := 4294967196 },
               { record1 with address := 2, isOnline := true, lastSeen := 4294927296 },
               { record1 with address := 3, isOnline := false, lastSeen := 40 }] []) = some s1 := h1
  have h3 : (checkOfflineInverters 30000 50
      (loaded [{ record1 with isOnline := true, lastSeen := 4294967196 },
               { record1 with address := 2, isOnline := true, lastSeen := 4294927296 },
               { record1 with address := 3, isOnline := false, lastSeen := 40 }] [])).map
        (fun s => (s.inverters.map (fun r => (r.address, r.isOnline, r.lastSeen)), s.serialOut))
      = some ([(1, true, 4294967196), (2, false, 4294927296), (3, false, 40)], []) := by
    decide
  rw [h2] at h3
  exact h3

/-- C15, counterexample: the registry that 256 registration requests for different serial
identifiers leave behind has 256 records, and `checkOfflineInverters` never returns on it,
whatever the threshold and the clock value are. -/
theorem C15_full_registry_never_checked :
    ∃ s, registerAll 0 example0 ((List.range 256).map serialOf) = some s
      ∧ s.inverters.length = 256
      ∧ ∀ OFFLINE_TIMEOUT now, checkOfflineInverters OFFLINE_TIMEOUT now s = none := by
  obtain ⟨s, hrun, _, haddr⟩ := registerAll_256_identifiers
  have hlen : s.inverters.length = 256 := by
    have := congrArg List.length haddr
    simpa using this
  refine ⟨s, hrun, hlen, fun OFFLINE_TIMEOUT now => ?_⟩
  have hnot : ¬ s.inverters.length < 256 := by omega
  simp only [checkOfflineInverters, hnot, if_false]

/-- C16. Stall recovery: let `checkIncomingData`, called at the clock value `t0`, have read
the synchronization octets and `k` further octets `ks` and have returned with a frame open.
A call with no octet available at a clock value `t1` that is more than 500 ms later (the
difference of the two 32-bit clock values taken modulo 2^32) returns the object with
`startPacketReceived = false` and nothing else changed: the assembler waits for
synchronization again and no handler has run.  A call with no octet available that comes
500 ms later or earlier leaves the frame open.  When the next call after the stall reads a
whole frame (its length within the receive buffer and the 8-bit counters), it makes exactly
one call of `parseIncomingData`, with the length of that frame, on an object whose receive
buffer starts with the octets of that frame and no others, whose registry and output are those
of before and which waits for synchronization; what `checkIncomingData` returns is what that
call returns, with `lastReceived` set. -/
theorem C16_stall_recovery (t0 t1 t2 : Nat) (s0 s1 : SamilCommunicator) (ks : List Nat)
    (hseen : checkIncomingData t0 s0 (0x55 :: 0xAA :: ks) = some s1)
    (hopen : s1.startPacketReceived = true)
    (ht0 : t0 < 4294967296) (ht1 : t1 < 4294967296)
    (hstall : ((t1 : ℤ) - (t0 : ℤ)) % 4294967296 > 500)
    (h0 h1 h2 h3 h4 h5 h6 : Nat) (bs : List Nat) (hbs : bs.length = h6 + 2)
    (hL : 7 + bs.length ≤ 255) (hcap : 7 + bs.length ≤ s1.inputBuffer.length) :
    checkIncomingData t1 s1 [] = some { s1 with startPacketReceived := false }
      ∧ (∀ t : Nat, t < 4294967296 → ((t : ℤ) - (t0 : ℤ)) % 4294967296 ≤ 500 →
          checkIncomingData t s1 [] = some s1)
      ∧ dispatched t2 { s1 with startPacketReceived := false }
          (0x55 :: 0xAA :: h0 :: h1 :: h2 :: h3 :: h4 :: h5 :: h6 :: bs)
        = [(7 + bs.length, [h0, h1, h2, h3, h4, h5, h6] ++ bs)]
      ∧ checkIncomingData t2 { s1 with startPacketReceived := false }
          (0x55 :: 0xAA :: h0 :: h1 :: h2 :: h3 :: h4 :: h5 :: h6 :: bs)
        = (parseIncomingData t2
            { s1 with inputBuffer := [h0, h1, h2, h3, h4, h5, h6] ++ bs
                                      ++ s1.inputBuffer.drop (7 + bs.length),
                      curReceivePtr := 7 + bs.length, numToRead := 0,
                      startPacketReceived := false, lastReceivedByte := 0 }
            (7 + bs.length)).map (fun s => { s with lastReceived := t2 })
      ∧ ([h0, h1, h2, h3, h4, h5, h6] ++ bs ++ s1.inputBuffer.drop (7 + bs.length)).take
          (7 + bs.length) = [h0, h1, h2, h3, h4, h5, h6] ++ bs := by
  have hlast : s1.lastReceived = t0 := by
    unfold checkIncomingData at hseen
    rw [if_pos (by simp)] at hseen
    cases hr : readAvailable t0 s0 (0x55 :: 0xAA :: ks) with
    | none => rw [hr] at hseen; simp at hseen
    | some s =>
      rw [hr] at hseen
      simp only [Option.map_some', Option.some.injEq] at hseen
      rw [← hseen]
  have hfr := receive_frame t2 { s1 with startPacketReceived := false } h0 h1 h2 h3 h4 h5 h6
    bs [] rfl hbs hL hcap
  rw [List.append_nil] at hfr
  refine ⟨?_, ?_, ?_, ?_, ?_⟩
  · have he := elapsed_eq_emod t1 t0 ht1 ht0
    have hgt : elapsed t1 t0 > PACKET_TIMEOUT := by
      have : ((elapsed t1 t0 : ℕ) : ℤ) > 500 := by rw [he]; exact hstall
      show 500 < elapsed t1 t0
      exact_mod_cast this
    unfold checkIncomingData
    rw [if_neg (by simp), hlast, hopen]
    simp [hgt]
  · intro t ht hle
    have he := elapsed_eq_emod t t0 ht ht0
    have hngt : ¬ elapsed t t0 > PACKET_TIMEOUT := by
      have : ((elapsed t t0 : ℕ) : ℤ) ≤ 500 := by rw [he]; exact hle
      show ¬ 500 < elapsed t t0
      have h2 : elapsed t t0 ≤ 500 := by exact_mod_cast this
      omega
    unfold checkIncomingData
    rw [if_neg (by simp), hlast, hopen]
    simp [hngt]
  · rw [hfr.2]
    generalize parseIncomingData t2 _ _ = res
    cases res <;> rfl
  · unfold checkIncomingData
    rw [if_pos (by simp), hfr.1]
    generalize parseIncomingData t2 _ _ = res
    cases res <;> rfl
  · exact List.take_left' (by simp; omega)

/-- C16, witness: `k = 3`.  The started object reads `55 AA 01 02 03` at time 1000 and is left
with an open frame; it gets no octet at time 1500, which leaves the frame open, and no octet at
time 1501, which closes it; it then reads the registration request of the specification, which
is dispatched alone and registered: one record, with address 1, and the receive buffer starts
with the 19 octets of the request. -/
theorem C16_stall_recovery_witness :
    checkIncomingData 1000 example0 [0x55, 0xAA, 0x01, 0x02, 0x03] = some stalled
      ∧ stalled.startPacketReceived = true
      ∧ checkIncomingData 1500 stalled [] = some stalled
      ∧ checkIncomingData 1501 stalled [] = some { stalled with startPacketReceived := false }
      ∧ dispatched 2000 { stalled with startPacketReceived := false }
          [0x55, 0xAA, 0x00, 0x00, 0x00, 0x00, 0x00, 0x80, 0x0A, 0x53, 0x32, 0x32, 0x31, 0x31,
            0x35, 0x31, 0x34, 0x31, 0x35, 0x03, 0xA2]
        = [(19, [0x00, 0x00, 0x00, 0x00, 0x00, 0x80, 0x0A, 0x53, 0x32, 0x32, 0x31, 0x31, 0x35,
              0x31, 0x34, 0x31, 0x35, 0x03, 0xA2])]
      ∧ (checkIncomingData 2000 { stalled with startPacketReceived := false }
          [0x55, 0xAA, 0x00, 0x00, 0x00, 0x00, 0x00, 0x80, 0x0A, 0x53, 0x32, 0x32, 0x31, 0x31,
            0x35, 0x31, 0x34, 0x31, 0x35, 0x03, 0xA2]).map
          (fun s => (s.inverters.map (fun r => (r.address, r.serialNumber.take 10)),
            s.startPacketReceived, s.inputBuffer.take 19, s.lastReceived))
        = some ([(1, [0x53, 0x32, 0x32, 0x31, 0x31, 0x35, 0x31, 0x34, 0x31, 0x35])], false,
            [0x00, 0x00, 0x00, 0x00, 0x00, 0x80, 0x0A, 0x53, 0x32, 0x32, 0x31, 0x31, 0x35,
              0x31, 0x34, 0x31, 0x35, 0x03, 0xA2], 2000) := by
  have h := C16_stall_recovery 1000 1501 2000 example0 stalled [0x01, 0x02, 0x03] (by decide)
    (by decide) (by decide) (by decide) (by simp) 0x00 0x00 0x00 0x00 0x00 0x80 0x0A
    [0x53, 0x32, 0x32, 0x31, 0x31, 0x35, 0x31, 0x34, 0x31, 0x35, 0x03, 0xA2] (by decide)
    (by decide) (by decide)
  refine ⟨by decide, by decide, h.2.1 1500 (by decide) (by simp), h.1, h.2.2.1, ?_⟩
  rw [h.2.2.2.1]
  decide

/-- C17. Frame completion countdown: for every header `h0 .. h6` with length octet `h6 = L`
and every following sequence `bs` of `L + 2` octets, with `7 + L + 2` within the receive buffer
and the range of the 8-bit counters, an object that waits for synchronization and reads the
synchronization octets, the header and `bs` dispatches nothing as long as an octet of the
sequence is outstanding, calls `parseIncomingData` exactly once, upon the last octet, with
the length `7 + L + 2` and a receive buffer that starts with exactly those `7 + L + 2` octets
in order, and is waiting for synchronization again at that call and after it. -/
theorem C17_frame_completion_countdown (now : Nat) (s : SamilCommunicator)
    (h0 h1 h2 h3 h4 h5 h6 : Nat) (bs : List Nat) (hstart : s.startPacketReceived = false)
    (hbs : bs.length = h6 + 2) (hL : 7 + bs.length ≤ 255)
    (hcap : 7 + bs.length ≤ s.inputBuffer.length) :
    (∀ pre post, post ≠ [] →
        0x55 :: 0xAA :: h0 :: h1 :: h2 :: h3 :: h4 :: h5 :: h6 :: bs = pre ++ post →
        dispatched now s pre = [])
      ∧ dispatched now s (0x55 :: 0xAA :: h0 :: h1 :: h2 :: h3 :: h4 :: h5 :: h6 :: bs)
          = [(7 + bs.length, [h0, h1, h2, h3, h4, h5, h6] ++ bs)]
      ∧ ∃ sF, sF.startPacketReceived = false
          ∧ sF.inputBuffer.take (7 + bs.length) = [h0, h1, h2, h3, h4, h5, h6] ++ bs
          ∧ readAvailable now s (0x55 :: 0xAA :: h0 :: h1 :: h2 :: h3 :: h4 :: h5 :: h6 :: bs)
              = parseIncomingData now sF (7 + bs.length)
          ∧ ∀ s2, parseIncomingData now sF (7 + bs.length) = some s2 →
              s2.startPacketReceived = false := by
  have hne : bs ≠ [] := by
    intro h; rw [h] at hbs; simp at hbs
  have hfr := receive_frame now s h0 h1 h2 h3 h4 h5 h6 bs [] hstart hbs hL hcap
  rw [List.append_nil] at hfr
  refine ⟨?_, ?_, ?_⟩
  · intro pre post hpost hsplit
    obtain ⟨sH, hst, hp, hn, _, hd⟩ := stored_sync_header now s h0 h1 h2 h3 h4 h5 h6
      bs.dropLast hstart (by omega) (by omega)
    have hlen : bs.dropLast.length = bs.length - 1 := List.length_dropLast bs
    have hblen : 0 < bs.length := List.length_pos.mpr hne
    have hquiet := (payload_quiet now bs.dropLast sH hst (by omega) (by omega) (by omega)
      (by omega)).1
    have hall : dispatched now s
        (0x55 :: 0xAA :: h0 :: h1 :: h2 :: h3 :: h4 :: h5 :: h6 :: bs.dropLast) = [] := by
      rw [hd, hquiet]
    have hdrop : pre ++ post.dropLast
        = 0x55 :: 0xAA :: h0 :: h1 :: h2 :: h3 :: h4 :: h5 :: h6 :: bs.dropLast := by
      rw [← List.dropLast_append_of_ne_nil pre hpost, ← hsplit]
      exact (List.dropLast_append_of_ne_nil [0x55, 0xAA, h0, h1, h2, h3, h4, h5, h6] hne)
    rw [← hdrop] at hall
    exact dispatched_nil_of_append now pre post.dropLast s hall
  · rw [hfr.2]
    generalize parseIncomingData now _ _ = res
    cases res <;> rfl
  · refine ⟨{ s with inputBuffer := [h0, h1, h2, h3, h4, h5, h6] ++ bs
                                      ++ s.inputBuffer.drop (7 + bs.length),
                     curReceivePtr := 7 + bs.length, numToRead := 0,
                     startPacketReceived := false, lastReceivedByte := 0 }, rfl, ?_, ?_, ?_⟩
    · exact List.take_left' (by simp; omega)
    · rw [hfr.1]
      generalize parseIncomingData now _ _ = res
      cases res <;> rfl
    · intro s2 h2
      rw [(parseIncomingData_assembler now _ s2 _ h2).2.1]

/-- C17, witness: the registration request of the specification, header `00 00 00 00 00 80
0A`, followed by its 12 octets of payload and checksum. -/
theorem C17_frame_completion_countdown_witness :
    dispatched 0 example0
        [0x55, 0xAA, 0x00, 0x00, 0x00, 0x00, 0x00, 0x80, 0x0A, 0x53, 0x32, 0x32, 0x31, 0x31,
          0x35, 0x31, 0x34, 0x31, 0x35, 0x03] = []
      ∧ dispatched 0 example0
          [0x55, 0xAA, 0x00, 0x00, 0x00, 0x00, 0x00, 0x80, 0x0A, 0x53, 0x32, 0x32, 0x31, 0x31,
            0x35, 0x31, 0x34, 0x31, 0x35, 0x03, 0xA2]
        = [(19, [0x00, 0x00, 0x00, 0x00, 0x00, 0x80, 0x0A, 0x53, 0x32, 0x32, 0x31, 0x31, 0x35,
              0x31, 0x34, 0x31, 0x35, 0x03, 0xA2])] :=
  have h := C17_frame_completion_countdown 0 example0 0x00 0x00 0x00 0x00 0x00 0x80 0x0A
    [0x53, 0x32, 0x32, 0x31, 0x31, 0x35, 0x31, 0x34, 0x31, 0x35, 0x03, 0xA2] (by decide)
    (by decide) (by decide) (by decide)
  ⟨h.1 _ [0xA2] (by decide) (by decide), h.2.1⟩

/-- C19, as amended. The address search has no bound and no exhaustion report.  For every
registry state with fewer than 256 records some 8-bit address is free, the address search
ends with a free address and a registration request returns.  For every registry state in
which every 8-bit address 0..255 is held by a record, the address search never ends, from
whatever cursor value, and a registration request for a serial identifier held by no record
never returns: nothing is reported and no record is added. -/
theorem C19_unbounded_address_search (now : Nat) (s : SamilCommunicator) (S : List Nat) :
    (s.inverters.length < 256 →
        (∃ a, searchFreeAddress s.inverters 256 ((s.lastUsedAddress + 1) % 256) = some a
          ∧ a < 256 ∧ AddressFree s.inverters a)
        ∧ ∃ s1, handleRegistration now s S 10 = some s1)
      ∧ ((∀ a, a < 256 → ¬ AddressFree s.inverters a) →
        (∀ fuel c, c < 256 → searchFreeAddress s.inverters fuel c = none)
        ∧ ((∀ q ∈ s.inverters, sameSerial S q = false) →
            handleRegistration now s S 10 = none)) := by
  constructor
  · intro hlen
    obtain ⟨a0, ha0, hfree0⟩ := exists_addressFree s.inverters hlen
    exact ⟨searchFreeAddress_total s.inverters hlen _ a0 (Nat.mod_lt _ (by norm_num)) ha0
      hfree0, handleRegistration_returns now s S hlen⟩
  · intro hfull
    exact ⟨fun fuel c hc => searchFreeAddress_exhausted s.inverters hfull fuel c hc,
      fun hnew => handleRegistration_exhausted now s S hfull hnew⟩

/-- C19, witness: with the record of address 1 in the registry, the search that starts at
the cursor value 1 ends with the free address 2. -/
theorem C19_unbounded_address_search_witness :
    (∃ a, searchFreeAddress [record1] 256 1 = some a ∧ a < 256 ∧ AddressFree [record1] a)
      ∧ ∃ s1, handleRegistration 0 (loaded [record1] []) (serialOf 4) 10 = some s1 :=
  (C19_unbounded_address_search 0 (loaded [record1] []) (serialOf 4)).1 (by decide)

/-- C19, counterexample: after registration requests for 256 different serial identifiers
every address 0..255 is held by a record; the registration request for one more identifier,
held by no record, never returns. -/
theorem C19_exhausted_registration_never_returns :
    ∃ s, registerAll 0 example0 ((List.range 256).map serialOf) = some s
      ∧ (∀ a, a < 256 → ¬ AddressFree s.inverters a)
      ∧ (∀ q ∈ s.inverters, q.serialNumber.take 10 ≠ [0, 1, 0, 0, 0, 0, 0, 0, 0, 0])
      ∧ handleRegistration 0 s [0, 1, 0, 0, 0, 0, 0, 0, 0, 0] 10 = none := by
  obtain ⟨s, hrun, hser, haddr⟩ := registerAll_256_identifiers
  have hfull : ∀ a, a < 256 → ¬ AddressFree s.inverters a := by
    intro a ha hfree
    have hmem : a ∈ s.inverters.map (·.address) := by
      rw [haddr]
      by_cases h0 : a = 0
      · simp [h0]
      · apply List.mem_append_left
        rw [List.mem_range'_1]
        omega
    obtain ⟨r, hr, hra⟩ := List.mem_map.mp hmem
    exact hfree r hr hra
  have hnew : ∀ q ∈ s.inverters, q.serialNumber.take 10 ≠ [0, 1, 0, 0, 0, 0, 0, 0, 0, 0] := by
    intro q hq heq
    have hmem : q.serialNumber.take 10 ∈ (List.range 256).map serialOf := by
      rw [← hser]
      exact List.mem_map.mpr ⟨q, hq, rfl⟩
    obtain ⟨j, _, hj⟩ := List.mem_map.mp hmem
    rw [heq] at hj
    simp [serialOf] at hj
  refine ⟨s, hrun, hfull, hnew, ?_⟩
  apply handleRegistration_exhausted 0 s _ hfull
  intro q hq
  exact (sameSerial_false_iff [0, 1, 0, 0, 0, 0, 0, 0, 0, 0] rfl q).mpr (hnew q hq)

/-- C20, as amended. Poll selection.  In every registry of fewer than 256 records (whose
addresses are octets) `askAllInvertersForInformation` sends, in registry order, exactly one
InformationRequest frame (destination the address of the record, control `01`, function `02`,
empty payload) for each record with `addressConfirmed = true` and `isOnline = true` and
nothing for any other record, and changes neither a record nor the cursor.  In every registry
of 256 records or more the call never returns: the 8-bit index of its loop stays below the
number of records. -/
theorem C20_poll_selection (m1 m2 : Nat) (s : SamilCommunicator) (hs : HeaderReady m1 m2 s)
    (haddr : ∀ r ∈ s.inverters, r.address < 256) :
    (s.inverters.length < 256 →
      ∃ s1, askAllInvertersForInformation s = some s1
        ∧ s1.inverters = s.inverters
        ∧ s1.lastUsedAddress = s.lastUsedAddress
        ∧ s1.serialOut = s.serialOut ++
            ((s.inverters.filter (fun r => r.addressConfirmed && r.isOnline)).map
              (fun r => referenceFrame m1 m2 r.address 0x01 0x02 [])).flatten)
      ∧ (256 ≤ s.inverters.length → askAllInvertersForInformation s = none) := by
  constructor
  · intro hlen
    have h := askAll_rounds m1 m2 s.inverters [] s rfl hs haddr
    simp only [List.length_nil, ← List.range_eq_range'] at h
    exact ⟨_, by simp only [askAllInvertersForInformation, hlen, if_true], h.1, h.2.1, h.2.2⟩
  · intro hlen
    have hnot : ¬ s.inverters.length < 256 := by omega
    simp only [askAllInvertersForInformation, hnot, if_false]

/-- C20, witness: of four records, the first and the last are confirmed and online. -/
theorem C20_poll_selection_witness :
    (askAllInvertersForInformation
        (loaded [{ record1 with addressConfirmed := true, isOnline := true },
                 { record1 with address := 2, addressConfirmed := true, isOnline := false },
                 { record1 with address := 3, addressConfirmed := false, isOnline := true },
                 { record1 with address := 4, addressConfirmed := true, isOnline := true }]
          [])).map (·.serialOut)
      = some (referenceFrame 0 0 1 0x01 0x02 [] ++ referenceFrame 0 0 4 0x01 0x02 []) := by
  obtain ⟨s1, h1, _, _, h4⟩ := (C20_poll_selection 0 0
    (loaded [{ record1 with addressConfirmed := true, isOnline := true },
             { record1 with address := 2, addressConfirmed := true, isOnline := false },
             { record1 with address := 3, addressConfirmed := false, isOnline := true },
             { record1 with address := 4, addressConfirmed := true, isOnline := true }] [])
    (by decide) (by decide)).1 (by decide)
  rw [h1, Option.map_some', h4]
  rfl

/-- C20, counterexample: the registry that 256 registration requests for different serial
identifiers leave behind has 256 records, all with an octet as address, in an object whose
header is ready; `askAllInvertersForInformation` never returns on it. -/
theorem C20_full_registry_never_polled :
    ∃ s, registerAll 0 example0 ((List.range 256).map serialOf) = some s
      ∧ s.inverters.length = 256
      ∧ (∀ r ∈ s.inverters, r.address < 256)
      ∧ askAllInvertersForInformation s = none := by
  obtain ⟨s, hrun, _, haddr⟩ := registerAll_256_identifiers
  have hlen : s.inverters.length = 256 := by
    have := congrArg List.length haddr
    simpa using this
  refine ⟨s, hrun, hlen, ?_, ?_⟩
  · intro r hr
    have hmem : r.address ∈ s.inverters.map (·.address) := List.mem_map.mpr ⟨r, hr, rfl⟩
    rw [haddr] at hmem
    rcases List.mem_append.mp hmem with h | h
    · rw [List.mem_range'_1] at h
      omega
    · simp at h
      omega
  · have hnot : ¬ s.inverters.length < 256 := by omega
    simp only [askAllInvertersForInformation, hnot, if_false]

end Samil
